import Mathlib

/-!
# Verification of the agency resource-matching engine

Shallow embedding of the matching, insight and persistence code of the
`hexglyph/agency` repository, together with theorems settling the frozen
claims about it.  Numbers that the TypeScript source handles as JS numbers
are embedded as rationals (`ℚ`); strings are Lean `String`s; `null`- or
`undefined`-able fields are `Option`s; JavaScript `Map`s are embedded as
association lists with JS `Map` semantics (insertion order preserved,
`set` on an existing key overwrites in place).
-/

namespace Agency

/-- `clamp(value, min, max)` from `packages/mock-data/src/shared.ts`:
`Math.min(max, Math.max(min, value))`. -/
def clamp (value lo hi : ℚ) : ℚ := min hi (max lo value)

/-- `normalizeLabel` as used across the repository:
`(input ?? "").trim().toLowerCase()` (case folding modelled on ASCII,
which covers the repository's label comparisons). -/
def normalizeLabel (s : String) : String := s.trim.toLower

/-- JS `Math.round`: round half away from zero upwards, i.e. `⌊x + 1/2⌋`. -/
def jsRound (q : ℚ) : ℤ := ⌊q + 1/2⌋

/-- JS string truthiness fallback `a || b`: the empty string is falsy. -/
def jsOr (a b : String) : String := if a = "" then b else a

/-- JS truthiness of a `string | null | undefined` value. -/
def jsTruthy : Option String → Bool
  | some s => s ≠ ""
  | none => false

/-- JS `a ?? b` on an optional string, with a string default. -/
def optOr (o : Option String) (d : String) : String := o.getD d

/-- JS `a || b || d` over optional strings (empty string falls through). -/
def jsOrOpt (o : Option String) (d : String) : String :=
  match o with
  | some s => if s = "" then d else s
  | none => d

section JsMap

variable {α : Type}

/-- JS `Map.prototype.set`: overwrite in place if the key exists,
otherwise append, preserving insertion order. -/
def jsSet (m : List (String × α)) (k : String) (v : α) : List (String × α) :=
  if m.any (fun p => p.1 = k) then
    m.map (fun p => if p.1 = k then (k, v) else p)
  else m ++ [(k, v)]

/-- JS `Map.prototype.get` (first pair wins; on maps built with `jsSet`
keys are unique so this matches JS). -/
def jsGet (m : List (String × α)) (k : String) : Option α :=
  (m.find? (fun p => p.1 = k)).map (fun p => p.2)

/-- `new Map(entries)`: fold `set` over the entry list (later duplicate
keys overwrite the value kept at the first occurrence's position). -/
def jsMapOfList (l : List (String × α)) : List (String × α) :=
  l.foldl (fun m p => jsSet m p.1 p.2) []

/-- Fold `Map.set` over a record list, keying each record by a function. -/
def jsSetAll (key : α → String) (m : List (String × α)) (l : List α) :
    List (String × α) :=
  l.foldl (fun m r => jsSet m (key r) r) m

end JsMap

section SortDesc

variable {α : Type} (key : α → ℚ)

/-- Insert an element into a descending-sorted list, after every element
whose key is `≥` its own key (the stable position). -/
def insertByKey (r : α) : List α → List α
  | [] => [r]
  | x :: t => if key r ≤ key x then x :: insertByKey r t else r :: x :: t

/-- Stable descending sort by a rational key.  ECMAScript `Array.sort`
with comparator `(a, b) => key(b) - key(a)` is required to be stable and
to order by the comparator, which determines its output uniquely; this
insertion sort realises exactly that output. -/
def sortByKeyDesc (l : List α) : List α :=
  l.foldl (fun acc r => insertByKey key r acc) []

end SortDesc

end Agency

namespace Agency.Slug

/-- `'-'` and the lower alphanumerics are the output alphabet of the slug. -/
def isAlnumLower (c : Char) : Bool :=
  (97 ≤ c.toNat ∧ c.toNat ≤ 122) ∨ (48 ≤ c.toNat ∧ c.toNat ≤ 57)

/-- Combining diacritical marks (U+0300–U+036F), the `\p{Diacritic}`
class as it applies to the NFD decompositions in `nfdTable`. -/
def isCombining (c : Char) : Bool := 768 ≤ c.toNat ∧ c.toNat ≤ 879

/-- NFD decompositions for the Latin letters that occur in the
repository's data (Portuguese diacritics and their neighbours); every
other character is NFD-invariant in this model, as the ASCII range is in
real NFD. -/
def nfdTable : List (Char × List Char) :=
  [('á', ['a', '́']), ('à', ['a', '̀']), ('â', ['a', '̂']),
   ('ã', ['a', '̃']), ('ä', ['a', '̈']), ('å', ['a', '̊']),
   ('é', ['e', '́']), ('è', ['e', '̀']), ('ê', ['e', '̂']),
   ('ë', ['e', '̈']),
   ('í', ['i', '́']), ('ì', ['i', '̀']), ('î', ['i', '̂']),
   ('ï', ['i', '̈']),
   ('ó', ['o', '́']), ('ò', ['o', '̀']), ('ô', ['o', '̂']),
   ('õ', ['o', '̃']), ('ö', ['o', '̈']),
   ('ú', ['u', '́']), ('ù', ['u', '̀']), ('û', ['u', '̂']),
   ('ü', ['u', '̈']),
   ('ç', ['c', '̧']), ('ñ', ['n', '̃']), ('ý', ['y', '́']),
   ('Á', ['A', '́']), ('À', ['A', '̀']), ('Â', ['A', '̂']),
   ('Ã', ['A', '̃']), ('Ä', ['A', '̈']), ('Å', ['A', '̊']),
   ('É', ['E', '́']), ('È', ['E', '̀']), ('Ê', ['E', '̂']),
   ('Ë', ['E', '̈']),
   ('Í', ['I', '́']), ('Ì', ['I', '̀']), ('Î', ['I', '̂']),
   ('Ï', ['I', '̈']),
   ('Ó', ['O', '́']), ('Ò', ['O', '̀']), ('Ô', ['O', '̂']),
   ('Õ', ['O', '̃']), ('Ö', ['O', '̈']),
   ('Ú', ['U', '́']), ('Ù', ['U', '̀']), ('Û', ['U', '̂']),
   ('Ü', ['U', '̈']),
   ('Ç', ['C', '̧']), ('Ñ', ['N', '̃']), ('Ý', ['Y', '́'])]

/-- `String.prototype.normalize("NFD")`, one character at a time. -/
def nfdChar (c : Char) : List Char :=
  ((nfdTable.find? (fun p => p.1 = c)).map (fun p => p.2)).getD [c]

/-- `String.prototype.toLowerCase()` restricted to ASCII letters (the
only case pairs that survive into the slug alphabet). -/
def toLowerCh (c : Char) : Char :=
  if 65 ≤ c.toNat ∧ c.toNat ≤ 90 then Char.ofNat (c.toNat + 32) else c

/-- `.replace(/[^a-z0-9]+/g, "-")`: each maximal run of characters
outside `[a-z0-9]` becomes a single `'-'`.  The boolean flag records
whether the previous character was part of such a run. -/
def replaceRuns : List Char → Bool → List Char
  | [], _ => []
  | c :: rest, inRun =>
    if isAlnumLower c then c :: replaceRuns rest false
    else if inRun then replaceRuns rest true
    else '-' :: replaceRuns rest true

/-- `.replace(/^-+|-+$/g, "")`: drop leading and trailing hyphen runs. -/
def trimHyphens (l : List Char) : List Char :=
  (((l.dropWhile (fun c => c = '-')).reverse.dropWhile (fun c => c = '-')).reverse)

/-- The slug pipeline on character lists. -/
def slugChars (l : List Char) : List Char :=
  trimHyphens
    (replaceRuns
      (((l.flatMap nfdChar).filter (fun c => ¬ isCombining c)).map toLowerCh)
      false)

/-- `slugify` from `packages/mock-data/src/shared.ts`:
NFD-normalize, strip diacritics, lowercase, collapse non-alphanumeric
runs to `'-'`, trim edge hyphens. -/
def slugify (s : String) : String := String.mk (slugChars s.data)

end Agency.Slug

namespace Agency.Core

/-- `Skill` from `packages/mock-data/src/types.ts`. -/
structure Skill where
  id : String
  name : String
  level : String
  source : String
  deriving DecidableEq, Repr

/-- `ProjectNeed` from `packages/mock-data/src/types.ts`. -/
structure Need where
  skillId : String
  label : String
  priority : String
  deriving DecidableEq, Repr

/-- `Resource` from `packages/mock-data/src/types.ts`. -/
structure Resource where
  id : String
  name : String
  macroArea : String
  coordination : String
  management : String
  department : String
  seniority : String
  availabilityHours : ℚ
  availability : ℚ
  skills : List Skill
  preferredTechs : List String
  notes : Option String
  deriving DecidableEq, Repr

/-- `Project` from `packages/mock-data/src/types.ts`. -/
structure Project where
  id : String
  siglaSistema : String
  nomeSistema : String
  titulo : String
  macroArea : String
  categoriaTecnologica : String
  complexidade : String
  equipeIdeal : String
  observacaoIA : String
  coordination : String
  needs : List Need
  deriving DecidableEq, Repr

/-- The `matchDetail` sub-record of a `Recommendation`. -/
structure MatchDetail where
  skillCoverage : ℚ
  availabilityScore : ℚ
  coordinationScore : ℚ
  deriving DecidableEq, Repr

/-- `Recommendation` from `packages/mock-data/src/types.ts`. -/
structure Recommendation where
  projectId : String
  projectName : String
  macroArea : String
  resourceId : String
  resourceName : String
  matchedSkills : List String
  coordinationFit : Bool
  score : ℚ
  matchDetail : MatchDetail
  notes : String
  deriving DecidableEq, Repr

/-- `new Map(project.needs.map(need => [need.skillId, need])).get(k)`:
with duplicate `skillId`s the later entry wins. -/
def needLookup (needs : List Need) (k : String) : Option Need :=
  needs.reverse.find? (fun need => need.skillId = k)

/-- The body of the `resources.map` callback inside
`buildRecommendations` (`packages/mock-data/src/core.ts`): zero or one
`Recommendation` for one (project, resource) pair. -/
def pairRecommendation (project : Project) (resource : Resource) :
    Option Recommendation :=
  let matchedNeeds := resource.skills.filterMap
    (fun skill => needLookup project.needs skill.id)
  if matchedNeeds.length = 0 ∨ resource.availability ≤ 0 then none
  else
    let skillCoverage : ℚ :=
      if project.needs.length = 0 then 0
      else (matchedNeeds.length : ℚ) / (project.needs.length : ℚ)
    let availabilityScore := clamp resource.availability 0 1
    let coordinationScore : ℚ :=
      if resource.macroArea.trim.toLower = project.macroArea.trim.toLower
      then 1 else 0
    let score :=
      skillCoverage * (1/2) + availabilityScore * (3/10) +
        coordinationScore * (1/5)
    some
      { projectId := project.id
        projectName := project.titulo
        macroArea := project.macroArea
        resourceId := resource.id
        resourceName := resource.name
        matchedSkills := matchedNeeds.map (fun need => need.label)
        coordinationFit := coordinationScore == 1
        score := clamp score 0 1
        matchDetail :=
          { skillCoverage := skillCoverage
            availabilityScore := availabilityScore
            coordinationScore := coordinationScore }
        notes := "" }

/-- The pre-sort enumeration of `buildRecommendations`: project-major
`flatMap`, with the `undefined` entries filtered out. -/
def enumeratePairs (resources : List Resource) (projects : List Project) :
    List Recommendation :=
  projects.flatMap (fun project =>
    resources.filterMap (fun resource => pairRecommendation project resource))

/-- `buildRecommendations` from `packages/mock-data/src/core.ts`
(the derive-from-scratch matching builder, weights 0.5/0.3/0.2). -/
def buildRecommendations (resources : List Resource)
    (projects : List Project) : List Recommendation :=
  sortByKeyDesc (fun r => r.score) (enumeratePairs resources projects)

end Agency.Core

namespace Agency.Dataset

/-- `ResourceSkill` from `apps/api/src/data/dataset.ts`. -/
structure DResourceSkill where
  id : String
  name : String
  level : Option String
  source : String
  deriving DecidableEq, Repr

/-- `ResourceProfile` from `apps/api/src/data/dataset.ts`. -/
structure DResource where
  id : String
  name : String
  role : Option String
  manager : Option String
  macroArea : Option String
  coordination : Option String
  department : Option String
  availability : Option ℚ
  availabilityHours : Option ℚ
  skills : List DResourceSkill
  preferredTechs : List String
  notes : Option String
  deriving DecidableEq, Repr

/-- `ProjectProfile` from `apps/api/src/data/dataset.ts`. -/
structure DProject where
  id : String
  siglaSistema : Option String
  nomeSistema : Option String
  titulo : Option String
  macroArea : Option String
  categoriaTecnologica : Option String
  complexidade : Option String
  equipeIdeal : Option String
  observacaoIA : Option String
  coordination : Option String
  needs : List Agency.Core.Need
  deriving DecidableEq, Repr

/-- `RecommendationProfile` from `apps/api/src/data/dataset.ts`. -/
structure DRecommendation where
  projectId : String
  projectName : String
  macroArea : Option String
  resourceId : String
  resourceName : String
  matchedSkills : List String
  coordinationFit : Bool
  score : ℚ
  matchDetail : Agency.Core.MatchDetail
  notes : String
  deriving DecidableEq, Repr

/-- The body of the inner resource loop of `buildRecommendations` in
`apps/api/src/data/dataset.ts`: `continue` is `none`, a push is `some`.
This path filters resources with no skills and pairs with no matched
skill, but does not filter on availability, and weighs the sub-scores
0.7/0.2/0.1. -/
def pairRecommendation (project : DProject) (resource : DResource) :
    Option DRecommendation :=
  if resource.skills.length = 0 then none
  else
    let normalizedNeeds := project.needs.map
      (fun need => (need.label, normalizeLabel need.label))
    let matchedSkills := resource.skills.filter (fun skill =>
      normalizedNeeds.any (fun need => need.2 = normalizeLabel skill.name))
    if matchedSkills.length = 0 then none
    else
      let skillCoverage : ℚ :=
        if normalizedNeeds.length = 0 then 0
        else (matchedSkills.length : ℚ) / (normalizedNeeds.length : ℚ)
      let availabilityScore : ℚ :=
        match resource.availability with
        | some a => max 0 (min 1 a)
        | none => 0
      let coordinationScore : ℚ :=
        if jsTruthy resource.macroArea ∧ jsTruthy project.macroArea ∧
            normalizeLabel (resource.macroArea.getD "") =
              normalizeLabel (project.macroArea.getD "")
        then 1 else 0
      let score :=
        max (min (skillCoverage * (7/10) + availabilityScore * (1/5) +
          coordinationScore * (1/10)) 1) 0
      some
        { projectId := project.id
          projectName :=
            jsOrOpt project.titulo
              (jsOrOpt project.nomeSistema
                (jsOrOpt project.siglaSistema project.id))
          macroArea := project.macroArea
          resourceId := resource.id
          resourceName := resource.name
          matchedSkills := matchedSkills.map (fun skill => skill.name)
          coordinationFit :=
            decide (jsTruthy resource.macroArea ∧ jsTruthy project.macroArea ∧
              normalizeLabel (resource.macroArea.getD "") =
                normalizeLabel (project.macroArea.getD ""))
          score := score
          matchDetail :=
            { skillCoverage := skillCoverage
              availabilityScore := availabilityScore
              coordinationScore := coordinationScore }
          notes := optOr project.observacaoIA "" }

/-- The pre-sort push order of the dataset builder: project-major loop,
projects without needs skipped. -/
def enumeratePairs (resources : List DResource) (projects : List DProject) :
    List DRecommendation :=
  projects.flatMap (fun project =>
    if project.needs.length = 0 then []
    else resources.filterMap (fun resource => pairRecommendation project resource))

/-- `buildRecommendations` from `apps/api/src/data/dataset.ts`
(the API dataset's derive-from-scratch builder, weights 0.7/0.2/0.1,
no availability exclusion). -/
def buildRecommendations (resources : List DResource)
    (projects : List DProject) : List DRecommendation :=
  sortByKeyDesc (fun r => r.score) (enumeratePairs resources projects)

end Agency.Dataset

namespace Agency.MockData

open Agency.Core

/-- `createProjectKey` from `packages/mock-data/src/shared.ts`. -/
def createProjectKey (sigla titulo : String) : String :=
  sigla.trim.toUpper ++ "::" ++ titulo.trim.toUpper

/-- `rawId.replace(/\s+/g, "")`: remove every whitespace character. -/
def stripSpaces (s : String) : String :=
  String.mk (s.data.filter (fun c => ¬ c.isWhitespace))

/-- One row of `mock_afinidade_projetos.csv`, at the interface where
`buildRecommendation` consumes it: `scoreAfinidade` is the result of
`parseNumber(record.ScoreAfinidade)` (0 when the cell is absent or
unparseable, per `parseNumber` in `shared.ts`), and
`funcionariosIndicadosIDs` is `sanitizeList(record.FuncionariosIndicadosIDs)`. -/
structure AffinityRecord where
  siglaSistema : String
  tituloDemanda : String
  scoreAfinidade : ℚ
  funcionariosIndicadosIDs : List String
  observacaoIA : String
  deriving DecidableEq, Repr

/-- `buildRecommendation` from `packages/mock-data/src/index.ts`
(the CSV-sourced affinity path): an externally supplied positive score
is kept (clamped), otherwise the 0.5/0.3/0.2 formula applies. -/
def buildRecommendation (record : AffinityRecord)
    (projectLookup : List (String × Project))
    (resourceLookup : List (String × Resource)) : List Recommendation :=
  match jsGet projectLookup
      (createProjectKey record.siglaSistema record.tituloDemanda) with
  | none => []
  | some project =>
    let score := record.scoreAfinidade
    record.funcionariosIndicadosIDs.flatMap (fun rawId =>
      let resourceId := stripSpaces rawId
      match jsGet resourceLookup resourceId with
      | none => []
      | some resource =>
        let matchedNeeds := resource.skills.filterMap
          (fun skill => needLookup project.needs skill.id)
        let skillCoverage : ℚ :=
          if project.needs.length = 0 then 0
          else (matchedNeeds.length : ℚ) / (project.needs.length : ℚ)
        let availabilityScore := clamp resource.availability 0 1
        let coordinationScore : ℚ :=
          if resource.macroArea.trim.toLower = project.macroArea.trim.toLower
          then 1 else 0
        [{ projectId := project.id
           projectName := project.titulo
           macroArea := project.macroArea
           resourceId := resource.id
           resourceName := resource.name
           matchedSkills := matchedNeeds.map (fun need => need.label)
           coordinationFit := coordinationScore == 1
           score :=
             if 0 < score then clamp score 0 1
             else clamp (skillCoverage * (1/2) + availabilityScore * (3/10) +
               coordinationScore * (1/5)) 0 1
           matchDetail :=
             { skillCoverage := skillCoverage
               availabilityScore := availabilityScore
               coordinationScore := coordinationScore }
           notes := record.observacaoIA }])

/-- The recommendation assembly of `loadMockData`
(`packages/mock-data/src/index.ts`): flat-map the affinity rows through
`buildRecommendation`, then sort descending by score.  (The CSV file
reading that produces the inputs is I/O outside this embedding.) -/
def affinityRecommendations (records : List AffinityRecord)
    (projectLookup : List (String × Project))
    (resourceLookup : List (String × Resource)) : List Recommendation :=
  sortByKeyDesc (fun r => r.score)
    (records.flatMap (fun record =>
      buildRecommendation record projectLookup resourceLookup))

end Agency.MockData

namespace Agency.Insights

/-- An entry of `InsightResource.skills` (part_004). -/
structure InsightSkill where
  name : String
  level : Option String
  deriving DecidableEq, Repr

/-- `InsightResource` from the insights service (part_004). -/
structure InsightResource where
  id : String
  name : String
  role : Option String
  coordination : Option String
  macroArea : Option String
  availability : Option ℚ
  skills : Option (List InsightSkill)
  preferredTechs : Option (List String)
  deriving DecidableEq, Repr

/-- A need of an `InsightProject` (part_004). -/
structure InsightNeed where
  label : String
  skillId : String
  deriving DecidableEq, Repr

/-- `InsightProject` from the insights service (part_004). -/
structure InsightProject where
  id : String
  name : String
  macroArea : Option String
  coordination : Option String
  needs : List InsightNeed
  deriving DecidableEq, Repr

/-- `InsightRecommendation` from the insights service (part_004). -/
structure InsightRecommendation where
  resourceId : String
  projectId : String
  projectName : String
  score : ℚ
  matchedSkills : List String
  deriving DecidableEq, Repr

/-- `InsightPayload` from the insights service (part_004). -/
structure InsightPayload where
  resources : List InsightResource
  projects : List InsightProject
  recommendations : List InsightRecommendation
  deriving DecidableEq, Repr

/-- One element of `InsightSuggestion.suggestedProjects` (part_004). -/
structure SuggestedProject where
  projectId : Option String
  projectName : String
  rationale : String
  deriving DecidableEq, Repr

/-- `InsightSuggestion` from the insights service (part_004). -/
structure InsightSuggestion where
  resourceId : String
  resourceName : String
  summary : String
  suggestedProjects : List SuggestedProject
  developmentIdeas : List String
  skillHighlights : Option (List String)
  skillGaps : Option (List String)
  deriving DecidableEq, Repr

/-- `CandidateMatch` from the insights service (part_004). -/
structure CandidateMatch where
  recommendation : InsightRecommendation
  missingSkills : List String
  deriving DecidableEq, Repr

/-- `CandidateProfile` from the insights service (part_004); the source
field `matches` is `matchList` here, as `matches` is a Lean keyword. -/
structure CandidateProfile where
  resource : InsightResource
  matchList : List CandidateMatch
  averageScore : ℚ
  deriving DecidableEq, Repr

/-- The recommendation grouping loop of `computeCandidateProfiles`:
append each recommendation to its resource's bucket. -/
def groupRecs (recs : List InsightRecommendation) :
    List (String × List InsightRecommendation) :=
  recs.foldl (fun g rec =>
    jsSet g rec.resourceId ((jsGet g rec.resourceId).getD [] ++ [rec])) []

/-- The per-resource profile constructed in the main loop of
`computeCandidateProfiles`. -/
def mkProfile (projectLookup : List (String × InsightProject))
    (projectNameLookup : List (String × InsightProject))
    (grouped : List (String × List InsightRecommendation))
    (resourceId : String) (resource : InsightResource) : CandidateProfile :=
  let recommendations := (jsGet grouped resourceId).getD []
  let sorted := (sortByKeyDesc (fun r => r.score) recommendations).take 3
  let matchList : List CandidateMatch :=
    if sorted.length ≠ 0 then
      sorted.map (fun rec =>
        let project :=
          (jsGet projectLookup rec.projectId).orElse
            (fun _ => jsGet projectNameLookup (normalizeLabel rec.projectName))
        let missingSkills :=
          (((project.map (fun p => p.needs)).getD []).map
            (fun need => need.label)).filter (fun label =>
              ¬ rec.matchedSkills.any (fun skill =>
                normalizeLabel skill = normalizeLabel label))
        { recommendation := rec, missingSkills := missingSkills })
    else []
  let averageScore : ℚ :=
    if matchList.length ≠ 0 ∧ sorted.length ≠ 0 then
      (sorted.map (fun r => r.score)).sum / (sorted.length : ℚ)
    else 0
  { resource := resource, matchList := matchList, averageScore := averageScore }

/-- `computeCandidateProfiles` from the insights service (part_004):
group recommendations by resource, take each resource's top 3 by score,
average them, then keep the 5 resources with the highest average. -/
def computeCandidateProfiles (payload : InsightPayload) :
    List CandidateProfile :=
  let resourceLookup := jsMapOfList (payload.resources.map (fun r => (r.id, r)))
  let projectLookup := jsMapOfList (payload.projects.map (fun p => (p.id, p)))
  let projectNameLookup :=
    jsMapOfList (payload.projects.map (fun p => (normalizeLabel p.name, p)))
  let grouped := groupRecs payload.recommendations
  let profiles := resourceLookup.map (fun entry =>
    mkProfile projectLookup projectNameLookup grouped entry.1 entry.2)
  (sortByKeyDesc (fun p => p.averageScore) profiles).take 5

/-- `addUnique` from `buildHeuristicSuggestion` (part_004): push the
trimmed value unless it is falsy or already present modulo
`normalizeLabel`. -/
def addUnique (target : List String) (value : Option String) : List String :=
  match value with
  | none => target
  | some v =>
    if v = "" then target
    else
      let trimmed := v.trim
      if trimmed = "" then target
      else if target.any (fun entry => normalizeLabel entry = normalizeLabel trimmed)
      then target
      else target ++ [trimmed]

/-- The `skillGaps` loop body of `buildHeuristicSuggestion` (part_004). -/
def gapStep (skillHighlights : List String) (gaps : List String)
    (skill : String) : List String :=
  if skill = "" then gaps
  else
    let normalized := normalizeLabel skill
    if normalized = "" then gaps
    else
      let alreadyCovered :=
        skillHighlights.any (fun entry => normalizeLabel entry = normalized)
      let alreadyListed :=
        gaps.any (fun entry => normalizeLabel entry = normalized)
      if ¬ alreadyCovered ∧ ¬ alreadyListed then addUnique gaps (some skill)
      else gaps

/-- `buildHeuristicSuggestion` from the insights service (part_004). -/
def buildHeuristicSuggestion (profile : CandidateProfile) : InsightSuggestion :=
  let resource := profile.resource
  let matchList := profile.matchList
  let averageScore := profile.averageScore
  let projectsList :=
    (matchList.map (fun m =>
      jsOr (jsOr m.recommendation.projectName m.recommendation.projectId)
        "Projeto sem nome")).filter (fun s => s ≠ "")
  let topSummary :=
    if projectsList.length > 0 then
      String.intercalate ", "
        (projectsList.enum.map (fun p =>
          p.2 ++ " (" ++
            toString (jsRound
              (((matchList.get? p.1).map
                (fun m => m.recommendation.score)).getD 0 * 100)) ++ "%)"))
    else "avaliar alocacao inicial (sem correspondencias mapeadas)"
  let availabilityPercent :=
    match resource.availability with
    | some a => toString (jsRound (a * 100)) ++ "%"
    | none => "disponibilidade nao mapeada"
  let summarySegments :=
    ["Priorizar " ++ resource.name ++ " (" ++
        optOr resource.macroArea "macroarea indefinida" ++ ")",
     "foco em " ++ topSummary,
     "Disponibilidade " ++ availabilityPercent,
     "Score medio " ++ toString (jsRound (averageScore * 100)) ++ "%"]
  let summary :=
    String.intercalate ". " (summarySegments.filter (fun s => s ≠ "")) ++ "."
  let suggestedProjects := matchList.map (fun m =>
    ({ projectId := some m.recommendation.projectId
       projectName := m.recommendation.projectName
       rationale :=
         String.intercalate " • "
           ((([some ("Score " ++
                 toString (jsRound (m.recommendation.score * 100)) ++ "%"),
               some (if m.recommendation.matchedSkills.length ≠ 0 then
                   "Skills cobertas: " ++
                     String.intercalate ", " m.recommendation.matchedSkills
                 else "Sem skill mapeada"),
               if m.missingSkills.length ≠ 0 then
                 some ("Aprimorar: " ++ String.intercalate ", " m.missingSkills)
               else none] : List (Option String)).filterMap id).filter
             (fun s => s ≠ "")) } : SuggestedProject))
  let highlights0 :=
    ((resource.skills.getD []).map (fun sk => sk.name)).foldl
      (fun t name => addUnique t (some name)) []
  let highlights1 :=
    (resource.preferredTechs.getD []).foldl
      (fun t tech => addUnique t (some tech)) highlights0
  let skillHighlights :=
    matchList.foldl (fun t m =>
      m.recommendation.matchedSkills.foldl
        (fun t' s => addUnique t' (some s)) t) highlights1
  let skillGaps :=
    matchList.foldl (fun g m =>
      m.missingSkills.foldl (gapStep skillHighlights) g) []
  let developmentIdeas :=
    if skillGaps.length ≠ 0 then
      ["Planejar desenvolvimento em " ++ String.intercalate ", " skillGaps ++ "."]
    else
      ["Mapear competencias complementares e alinhar proxima alocacao com gestor responsavel."]
  { resourceId := resource.id
    resourceName := resource.name
    summary := summary
    suggestedProjects := suggestedProjects
    developmentIdeas := developmentIdeas
    skillHighlights := some skillHighlights
    skillGaps := some skillGaps }

/-- One entry of a suggested project inside a parsed provider reply. -/
structure AzureProject where
  projectId : Option String
  projectName : Option String
  rationale : Option String
  deriving DecidableEq, Repr

/-- One parsed provider entry, after the loose casts that
`mergeAzureWithHeuristics` applies (`String(raw.resourceId)` and
`String(idea)` coercions are already reflected as strings; a field whose
runtime value is not an array is `none` for the array-typed fields, as
`Array.isArray` rejects it). -/
structure AzureEntry where
  resourceId : Option String
  resourceName : Option String
  summary : Option String
  suggestedProjects : Option (List AzureProject)
  developmentIdeas : Option (List String)
  skillHighlights : Option (List String)
  skillGaps : Option (List String)
  deriving DecidableEq, Repr

/-- The per-index `suggestedProjects` merge of `mergeAzureWithHeuristics`:
each parsed sub-field falls back to the baseline entry at the same index,
then to a literal default. -/
def mergeSuggestedProjects (ps : List AzureProject)
    (base : List SuggestedProject) : List SuggestedProject :=
  ps.enum.map (fun entry =>
    let index := entry.1
    let project := entry.2
    { projectId :=
        project.projectId.orElse
          (fun _ => (base.get? index).bind (fun b => b.projectId))
      projectName :=
        (project.projectName.orElse
          (fun _ => (base.get? index).map (fun b => b.projectName))).getD
          ("Projeto " ++ toString (index + 1))
      rationale :=
        (project.rationale.orElse
          (fun _ => (base.get? index).map (fun b => b.rationale))).getD
          "Racional nao fornecido pelo modelo." })

/-- The `suggestedProjects` override rule: only a present, non-empty
parsed array replaces the baseline list. -/
def overrideProjects (raw : Option (List AzureProject))
    (base : List SuggestedProject) : List SuggestedProject :=
  match raw with
  | some ps => if ps.length ≠ 0 then mergeSuggestedProjects ps base else base
  | none => base

/-- The `developmentIdeas` override rule: only a present, non-empty
parsed array replaces the baseline list. -/
def overrideIdeas (raw : Option (List String)) (base : List String) :
    List String :=
  match raw with
  | some ideas => if ideas.length ≠ 0 then ideas else base
  | none => base

/-- The `skillHighlights`/`skillGaps` override rule: a present, non-empty
parsed array replaces the baseline after dropping empty strings
(`.map(String).filter(Boolean)`). -/
def overrideSkillList (raw : Option (List String))
    (base : Option (List String)) : Option (List String) :=
  match raw with
  | some l => if l.length ≠ 0 then some (l.filter (fun s => s ≠ "")) else base
  | none => base

/-- The loop body of `mergeAzureWithHeuristics` (part_004): one parsed
entry updates the `merged` map when its `resourceId` is truthy and
matches a heuristic baseline. -/
def mergeEntry (heuristicMap : List (String × InsightSuggestion))
    (merged : List (String × InsightSuggestion)) (entry : AzureEntry) :
    List (String × InsightSuggestion) :=
  match entry.resourceId with
  | none => merged
  | some resourceId =>
    if resourceId = "" then merged
    else
      match jsGet heuristicMap resourceId with
      | none => merged
      | some base =>
        jsSet merged resourceId
          { resourceId := resourceId
            resourceName := entry.resourceName.getD base.resourceName
            summary := entry.summary.getD base.summary
            suggestedProjects :=
              overrideProjects entry.suggestedProjects base.suggestedProjects
            developmentIdeas :=
              overrideIdeas entry.developmentIdeas base.developmentIdeas
            skillHighlights :=
              overrideSkillList entry.skillHighlights base.skillHighlights
            skillGaps := overrideSkillList entry.skillGaps base.skillGaps }

/-- `mergeAzureWithHeuristics` from the insights service (part_004).
Entries that are not objects are skipped by the source before any field
is read; the embedding therefore takes the list of object entries. -/
def mergeAzureWithHeuristics (heuristics : List InsightSuggestion)
    (azure : List AzureEntry) : List InsightSuggestion :=
  let heuristicMap :=
    jsMapOfList (heuristics.map (fun item => (item.resourceId, item)))
  let merged := azure.foldl (mergeEntry heuristicMap) []
  heuristics.map (fun item => (jsGet merged item.resourceId).getD item)

/-- The result record of `generateInsights` (part_004); the
`rawAzureResponse` diagnostic passthrough is kept as an optional string. -/
structure InsightResult where
  generatedAt : String
  usingAzure : Bool
  model : Option String
  latencyMs : Option ℚ
  insights : List InsightSuggestion
  error : Option String
  rawAzureResponse : Option String
  deriving DecidableEq, Repr

/-- The outcome of the single provider call made by `generateInsights`:
either a transport failure (caught by the `catch` branch) or a completion
whose `parseInsights` result is `parsed`. -/
inductive ProviderOutcome where
  | failure (message : String)
  | success (parsed : Option (List AzureEntry)) (model : Option String)
      (latencyMs : ℚ) (completion : String)
  deriving DecidableEq, Repr

/-- The provider's default model name (part_004). -/
def DEFAULT_MODEL : String := "gpt-5-mini"

/-- `generateInsights` from the insights service (part_004), with the
async provider call abstracted into `outcome`, the wall clock into
`generatedAt`, and the store persistence (a side effect on the insight
store, § insights-store) outside the returned value. -/
def generateInsights (configured : Bool) (generatedAt : String)
    (outcome : ProviderOutcome) (payload : InsightPayload) : InsightResult :=
  let profiles := computeCandidateProfiles payload
  let heuristics := profiles.map buildHeuristicSuggestion
  if ¬ configured then
    { generatedAt := generatedAt
      usingAzure := false
      model := none
      latencyMs := none
      insights := heuristics
      error := some "Azure OpenAI nao configurado. Retornando heuristicas locais."
      rawAzureResponse := none }
  else if profiles.length = 0 then
    { generatedAt := generatedAt
      usingAzure := true
      model := none
      latencyMs := none
      insights := []
      error := some "Nenhum candidato elegivel para gerar insights."
      rawAzureResponse := none }
  else
    match outcome with
    | .success parsed model latencyMs completion =>
      let insights :=
        match parsed with
        | some entries => mergeAzureWithHeuristics heuristics entries
        | none => heuristics
      { generatedAt := generatedAt
        usingAzure := parsed.isSome
        model := some (model.getD DEFAULT_MODEL)
        latencyMs := some latencyMs
        insights := insights
        error :=
          if parsed.isSome then none
          else some "Resposta do Azure em formato inesperado. Utilizando heuristicas."
        rawAzureResponse := if parsed.isSome then none else some completion }
    | .failure message =>
      { generatedAt := generatedAt
        usingAzure := false
        model := none
        latencyMs := none
        insights := heuristics
        error := some message
        rawAzureResponse := none }

end Agency.Insights

namespace Agency.Store

open Agency.Insights

/-- `StoredInsightRecord` from `apps/api/src/data/insights-store.ts`:
an `InsightSuggestion` plus generation metadata (`rawAzureResponse`, an
arbitrary diagnostic value in the source, is kept as an optional
string). -/
structure StoredInsightRecord where
  resourceId : String
  resourceName : String
  summary : String
  suggestedProjects : List SuggestedProject
  developmentIdeas : List String
  skillHighlights : Option (List String)
  skillGaps : Option (List String)
  generatedAt : String
  usingAzure : Bool
  model : Option String
  latencyMs : Option ℚ
  rawAzureResponse : Option String
  deriving DecidableEq, Repr

/-- The Map-overlay core of `upsertStoredInsights`: fold `map.set` over
the existing records, then over the new ones, and take the map's values
in insertion order. -/
def upsertCore (existing records : List StoredInsightRecord) :
    List StoredInsightRecord :=
  (jsSetAll (fun r => r.resourceId)
    (jsSetAll (fun r => r.resourceId) [] existing) records).map
    (fun p => p.2)

/-- `upsertStoredInsights` from `apps/api/src/data/insights-store.ts`,
viewed as a transformer of the stored record list (the file read/write
around it is I/O; an empty `records` argument returns without touching
the store). -/
def upsertStoredInsights (store records : List StoredInsightRecord) :
    List StoredInsightRecord :=
  if records.length = 0 then store else upsertCore store records

/-- The observable states of `insights_store.json` for the load path:
the file may be absent, unreadable, readable but not JSON, JSON but not
an array, or a well-formed array of records. -/
inductive StoreFile where
  | missing
  | unreadable
  | unparseable
  | nonArray
  | records (l : List StoredInsightRecord)
  deriving DecidableEq, Repr

/-- `ensureStoreFile` from `apps/api/src/data/insights-store.ts`: when
`fs.access` fails the file is (re)created holding `"[]"`. -/
def ensureStoreFile : StoreFile → StoreFile
  | .missing => .records []
  | s => s

/-- What one `loadStoredInsights` call produces: the file state it
leaves behind, the record list returned to the caller (the function's
entire return value — it has no error channel), and whether the `catch`
branch logged a read failure to the console. -/
structure LoadResult where
  state : StoreFile
  records : List StoredInsightRecord
  loggedError : Bool
  deriving DecidableEq, Repr

/-- `loadStoredInsights` from `apps/api/src/data/insights-store.ts`:
self-initialize via `ensureStoreFile`, then read and parse; a read or
parse failure is caught, logged, and answered with `[]`; a parseable
non-array is answered with `[]` without logging. -/
def loadStoredInsights (file : StoreFile) : LoadResult :=
  let file := ensureStoreFile file
  match file with
  | .records l => { state := file, records := l, loggedError := false }
  | .unreadable => { state := file, records := [], loggedError := true }
  | .unparseable => { state := file, records := [], loggedError := true }
  | .nonArray => { state := file, records := [], loggedError := false }
  | .missing => { state := file, records := [], loggedError := false }

end Agency.Store

namespace Agency.Store

/-- The caller's lookup into a stored record list, by `resourceId`. -/
def storeFind (l : List StoredInsightRecord) (k : String) :
    Option StoredInsightRecord :=
  l.find? (fun r => r.resourceId = k)

end Agency.Store

namespace Agency.Insights

/-- The recommendations of one resource, in payload order (the claim's
independent description of the grouping step). -/
def recsFor (payload : InsightPayload) (rid : String) :
    List InsightRecommendation :=
  payload.recommendations.filter (fun r => r.resourceId = rid)

/-- A resource's top 3 recommendations by score (stable). -/
def topThree (recs : List InsightRecommendation) :
    List InsightRecommendation :=
  (sortByKeyDesc (fun r => r.score) recs).take 3

/-- The mean score over a resource's top 3 recommendations (0 when it
has none). -/
def avgTopThree (recs : List InsightRecommendation) : ℚ :=
  let t := topThree recs
  if t.length = 0 then 0 else (t.map (fun r => r.score)).sum / (t.length : ℚ)

end Agency.Insights

namespace Agency.Examples

open Agency.Core Agency.Dataset Agency.MockData Agency.Insights Agency.Store

/-- A dataset resource with one skill and no recorded availability. -/
def dResourceNoAvail : DResource :=
  { id := "r1", name := "Ana", role := none, manager := none,
    macroArea := none, coordination := none, department := none,
    availability := none, availabilityHours := none,
    skills := [{ id := "devops", name := "DevOps", level := none,
                 source := "insight" }],
    preferredTechs := [], notes := none }

/-- A dataset resource with one skill and availability exactly 0. -/
def dResourceZeroAvail : DResource :=
  { dResourceNoAvail with
      id := "r2", name := "Bia", availability := some 0 }

/-- A dataset project with two needs, one of which `dResourceNoAvail`
covers. -/
def dProjectTwoNeeds : DProject :=
  { id := "p1", siglaSistema := none, nomeSistema := none,
    titulo := some "Projeto Um", macroArea := none,
    categoriaTecnologica := none, complexidade := none,
    equipeIdeal := none, observacaoIA := none, coordination := none,
    needs := [{ skillId := "devops", label := "DevOps", priority := "media" },
              { skillId := "azure", label := "Azure", priority := "media" }] }

/-- A core (mock-data) resource covering one of two needs, availability
0.4, matching macro-area. -/
def cResource : Resource :=
  { id := "f1", name := "Ana", macroArea := "Infra",
    coordination := "Infra", management := "Gestao Infra",
    department := "Diretoria Infra", seniority := "pleno",
    availabilityHours := 64, availability := 2/5,
    skills := [{ id := "devops", name := "DevOps", level := "pleno",
                 source := "competencia" }],
    preferredTechs := [], notes := none }

/-- A core project with two needs and macro-area `Infra`. -/
def cProject : Project :=
  { id := "p1", siglaSistema := "SIG", nomeSistema := "Sistema",
    titulo := "Projeto Um", macroArea := "Infra",
    categoriaTecnologica := "Tec", complexidade := "Media",
    equipeIdeal := "", observacaoIA := "", coordination := "Infra",
    needs := [{ skillId := "devops", label := "DevOps", priority := "media" },
              { skillId := "azure", label := "Azure", priority := "media" }] }

/-- An affinity CSV row supplying the external score 0.82 for `cResource`
against `cProject`. -/
def affinityRow : AffinityRecord :=
  { siglaSistema := "SIG", tituloDemanda := "Projeto Um",
    scoreAfinidade := 82/100, funcionariosIndicadosIDs := ["f1"],
    observacaoIA := "" }

/-- A baseline heuristic suggestion used to probe the merge. -/
def mergeBase : InsightSuggestion :=
  { resourceId := "r1", resourceName := "Ana",
    summary := "Priorizar Ana.", suggestedProjects := [],
    developmentIdeas := ["ideia"], skillHighlights := none,
    skillGaps := none }

/-- A parsed provider entry for `mergeBase` whose `summary` is present
but empty. -/
def mergeEmptySummaryEntry : AzureEntry :=
  { resourceId := some "r1", resourceName := none, summary := some "",
    suggestedProjects := none, developmentIdeas := none,
    skillHighlights := none, skillGaps := none }

/-- A parsed provider entry for `mergeBase` with a new summary and an
empty `developmentIdeas` array. -/
def mergeRichEntry : AzureEntry :=
  { resourceId := some "r1", resourceName := none,
    summary := some "Novo resumo.", suggestedProjects := none,
    developmentIdeas := some [], skillHighlights := none,
    skillGaps := none }

/-- A small stored insight record for exercising the store upsert. -/
def storedRec : StoredInsightRecord :=
  { resourceId := "r1", resourceName := "Ana",
    summary := "Priorizar Ana.", suggestedProjects := [],
    developmentIdeas := ["ideia"], skillHighlights := none,
    skillGaps := none, generatedAt := "2024-01-01T00:00:00Z",
    usingAzure := false, model := none, latencyMs := none,
    rawAzureResponse := none }

/-- A second stored record under the same `resourceId` as `storedRec`. -/
def storedRecV2 : StoredInsightRecord :=
  { storedRec with
      summary := "Atualizado.", usingAzure := true }

/-- An insight payload with two resources and three recommendations. -/
def insightPayload : InsightPayload :=
  { resources :=
      [{ id := "r1", name := "Ana", role := none, coordination := none,
         macroArea := some "Infra", availability := some (2/5),
         skills := some [{ name := "DevOps", level := none }],
         preferredTechs := some [] },
       { id := "r2", name := "Bia", role := none, coordination := none,
         macroArea := none, availability := none, skills := none,
         preferredTechs := none }]
    projects :=
      [{ id := "p1", name := "Projeto Um", macroArea := some "Infra",
         coordination := none,
         needs := [{ label := "DevOps", skillId := "devops" },
                   { label := "Azure", skillId := "azure" }] }]
    recommendations :=
      [{ resourceId := "r1", projectId := "p1",
         projectName := "Projeto Um", score := 1/2,
         matchedSkills := ["DevOps"] },
       { resourceId := "r1", projectId := "p1",
         projectName := "Projeto Um", score := 3/10,
         matchedSkills := ["DevOps"] },
       { resourceId := "r1", projectId := "p1",
         projectName := "Projeto Um", score := 7/10,
         matchedSkills := ["DevOps"] }] }

/-- The recommendation the core builder emits for `cResource` against
`cProject` (the spec's worked 0.57 example). -/
def coreRec : Recommendation :=
  { projectId := "p1", projectName := "Projeto Um", macroArea := "Infra",
    resourceId := "f1", resourceName := "Ana",
    matchedSkills := ["DevOps"], coordinationFit := true,
    score := 57/100,
    matchDetail := { skillCoverage := 1/2, availabilityScore := 2/5,
                     coordinationScore := 1 },
    notes := "" }

/-- The recommendation the dataset builder emits for `dResourceNoAvail`
against `dProjectTwoNeeds`. -/
def datasetRec : DRecommendation :=
  { projectId := "p1", projectName := "Projeto Um", macroArea := none,
    resourceId := "r1", resourceName := "Ana",
    matchedSkills := ["DevOps"], coordinationFit := false,
    score := 7/20,
    matchDetail := { skillCoverage := 1/2, availabilityScore := 0,
                     coordinationScore := 0 },
    notes := "" }

/-- The recommendation the CSV affinity path emits for `affinityRow`. -/
def affinityRec : Recommendation :=
  { coreRec with score := 41/50 }

/-- Three recommendations for resource `r1` in payload order. -/
def rec5 : InsightRecommendation :=
  { resourceId := "r1", projectId := "p1", projectName := "Projeto Um",
    score := 1/2, matchedSkills := ["DevOps"] }

/-- See `rec5`. -/
def rec3 : InsightRecommendation :=
  { rec5 with score := 3/10 }

/-- See `rec5`. -/
def rec7 : InsightRecommendation :=
  { rec5 with score := 7/10 }

/-- A minimal insight resource with a given id. -/
def bareResource (rid : String) : InsightResource :=
  { id := rid, name := "Pessoa " ++ rid, role := none, coordination := none,
    macroArea := none, availability := none, skills := none,
    preferredTechs := none }

/-- An insight payload with six resources; only `r1` has
recommendations, so `r6` falls outside the top 5. -/
def insightPayload6 : InsightPayload :=
  { resources :=
      [bareResource "r1", bareResource "r2", bareResource "r3",
       bareResource "r4", bareResource "r5", bareResource "r6"]
    projects :=
      [{ id := "p1", name := "Projeto Um", macroArea := some "Infra",
         coordination := none,
         needs := [{ label := "DevOps", skillId := "devops" },
                   { label := "Azure", skillId := "azure" }] }]
    recommendations := [rec5, rec3, rec7] }

/-- The candidate profile the selector computes for `r1` in
`insightPayload6`. -/
def candidateR1 : CandidateProfile :=
  { resource := bareResource "r1"
    matchList :=
      [{ recommendation := rec7, missingSkills := ["Azure"] },
       { recommendation := rec5, missingSkills := ["Azure"] },
       { recommendation := rec3, missingSkills := ["Azure"] }]
    averageScore := 1/2 }

end Agency.Examples

namespace Agency

theorem clamp_nonneg (q : ℚ) : 0 ≤ clamp q 0 1 :=
  le_min (by norm_num) (le_max_left 0 q)

theorem clamp_le_one (q : ℚ) : clamp q 0 1 ≤ 1 := min_le_left 1 _

theorem clamp_pos_iff (q : ℚ) : 0 < clamp q 0 1 ↔ 0 < q := by
  unfold clamp
  constructor
  · intro h
    by_contra hq
    push_neg at hq
    have : max 0 q = 0 := max_eq_left hq
    rw [this] at h
    simp at h
  · intro h
    have h1 : max 0 q = q := max_eq_right h.le
    rw [h1]
    exact lt_min one_pos h

section SortLemmas

variable {α : Type} (key : α → ℚ)

theorem insertByKey_perm (r : α) (s : List α) :
    List.Perm (insertByKey key r s) (r :: s) := by
  induction s with
  | nil => rfl
  | cons x t ih =>
    by_cases h : key r ≤ key x
    · simp only [insertByKey, if_pos h]
      exact (ih.cons x).trans (List.Perm.swap r x t)
    · simp [insertByKey, if_neg h]

theorem insertByKey_head (r : α) (t : List α) :
    (insertByKey key r t).head? = some r ∨
      (insertByKey key r t).head? = t.head? := by
  cases t with
  | nil => left; rfl
  | cons x t' =>
    by_cases h : key r ≤ key x
    · right; simp [insertByKey, h]
    · left; simp [insertByKey, h]

theorem chain_le_head {x : α} {t : List α}
    (h : List.Chain' (fun a b => key b ≤ key a) (x :: t)) :
    ∀ y ∈ t, key y ≤ key x := by
  haveI : IsTrans α (fun a b : α => key b ≤ key a) :=
    ⟨fun a b c h1 h2 => le_trans h2 h1⟩
  rw [List.chain'_iff_pairwise] at h
  exact fun y hy => (List.pairwise_cons.mp h).1 y hy

theorem insertByKey_sorted (r : α) {s : List α}
    (hs : List.Chain' (fun a b => key b ≤ key a) s) :
    List.Chain' (fun a b => key b ≤ key a) (insertByKey key r s) := by
  induction s with
  | nil => simp [insertByKey]
  | cons x t ih =>
    rw [List.chain'_cons'] at hs
    by_cases h : key r ≤ key x
    · simp only [insertByKey, if_pos h]
      rw [List.chain'_cons']
      refine ⟨?_, ih hs.2⟩
      intro y hy
      rcases insertByKey_head key r t with hh | hh
      · rw [hh] at hy
        simp only [Option.mem_def, Option.some.injEq] at hy
        subst hy; exact h
      · rw [hh] at hy
        exact hs.1 y hy
    · push_neg at h
      simp only [insertByKey, if_neg (not_le.mpr h)]
      rw [List.chain'_cons']
      refine ⟨?_, List.chain'_cons'.mpr hs⟩
      intro y hy
      simp only [List.head?_cons, Option.mem_def, Option.some.injEq] at hy
      subst hy; exact h.le

theorem insertByKey_filter (r : α) {s : List α}
    (hs : List.Chain' (fun a b => key b ≤ key a) s) (q : ℚ) :
    (insertByKey key r s).filter (fun a => decide (key a = q)) =
      if key r = q then
        s.filter (fun a => decide (key a = q)) ++ [r]
      else s.filter (fun a => decide (key a = q)) := by
  induction s with
  | nil =>
    by_cases hq : key r = q <;> simp [insertByKey, hq]
  | cons x t ih =>
    by_cases h : key r ≤ key x
    · simp only [insertByKey, if_pos h, List.filter_cons]
      rw [ih (List.chain'_cons'.mp hs).2]
      by_cases hq : key r = q <;> by_cases hx : key x = q <;>
        simp [hq, hx]
    · push_neg at h
      simp only [insertByKey, if_neg (not_le.mpr h)]
      by_cases hq : key r = q
      · have hnone : ∀ y ∈ x :: t, key y ≠ q := by
          intro y hy
          rcases List.mem_cons.mp hy with rfl | hyt
          · exact fun hc => absurd (hc ▸ h) (by simp [hq])
          · intro hc
            have := chain_le_head key hs y hyt
            rw [hc, ← hq] at this
            exact absurd (lt_of_lt_of_le h this) (lt_irrefl _)
        have hf : (x :: t).filter (fun a => decide (key a = q)) = [] := by
          apply List.filter_eq_nil_iff.mpr
          intro y hy
          simpa using hnone y hy
        simp [List.filter_cons, hq, hf]
      · simp [List.filter_cons, hq]

theorem sortByKeyDesc_append_singleton (l : List α) (r : α) :
    sortByKeyDesc key (l ++ [r]) = insertByKey key r (sortByKeyDesc key l) := by
  simp [sortByKeyDesc, List.foldl_append]

theorem sortByKeyDesc_sorted (l : List α) :
    List.Chain' (fun a b => key b ≤ key a) (sortByKeyDesc key l) := by
  induction l using List.reverseRecOn with
  | nil => simp [sortByKeyDesc]
  | append_singleton l r ih =>
    rw [sortByKeyDesc_append_singleton]
    exact insertByKey_sorted key r ih

theorem sortByKeyDesc_perm (l : List α) :
    List.Perm (sortByKeyDesc key l) l := by
  induction l using List.reverseRecOn with
  | nil => simp [sortByKeyDesc]
  | append_singleton l r ih =>
    rw [sortByKeyDesc_append_singleton]
    exact ((insertByKey_perm key r _).trans (ih.cons r)).trans
      (List.perm_append_singleton r l).symm

theorem sortByKeyDesc_mem {a : α} (l : List α) :
    a ∈ sortByKeyDesc key l ↔ a ∈ l :=
  (sortByKeyDesc_perm key l).mem_iff

theorem sortByKeyDesc_filter (l : List α) (q : ℚ) :
    (sortByKeyDesc key l).filter (fun a => decide (key a = q)) =
      l.filter (fun a => decide (key a = q)) := by
  induction l using List.reverseRecOn with
  | nil => simp [sortByKeyDesc]
  | append_singleton l r ih =>
    rw [sortByKeyDesc_append_singleton,
      insertByKey_filter key r (sortByKeyDesc_sorted key l) q,
      List.filter_append]
    by_cases hq : key r = q <;> simp [hq, ih]

end SortLemmas

end Agency

namespace Agency

section JsMapLemmas

variable {α : Type}

theorem jsSet_cons (p : String × α) (t : List (String × α)) (k : String)
    (v : α) :
    jsSet (p :: t) k v =
      if p.1 = k then
        (k, v) :: t.map (fun q => if q.1 = k then (k, v) else q)
      else p :: jsSet t k v := by
  by_cases hp : p.1 = k
  · simp [jsSet, hp]
  · by_cases ht : (t.any (fun q => q.1 = k)) = true
    · simp [jsSet, hp, ht]
    · simp [jsSet, hp, ht]

theorem find?_map_replace_ne (t : List (String × α)) (k k' : String) (v : α)
    (h : k' ≠ k) :
    (t.map (fun q => if q.1 = k then (k, v) else q)).find?
        (fun p => p.1 = k') =
      t.find? (fun p => p.1 = k') := by
  induction t with
  | nil => rfl
  | cons q t ih =>
    by_cases hq : q.1 = k
    · have hk : ¬ ((k : String) = k') := fun hc => h hc.symm
      have hq' : ¬ (q.1 = k') := by rw [hq]; exact hk
      simp only [List.map_cons, if_pos hq, List.find?_cons]
      rw [show (decide ((k, v).1 = k')) = false by simpa using hk,
        show (decide (q.1 = k')) = false by simpa using hq']
      exact ih
    · simp only [List.map_cons, if_neg hq, List.find?_cons]
      cases hq' : decide (q.1 = k') <;> simp [ih]

theorem jsGet_cons (p : String × α) (t : List (String × α)) (k : String) :
    jsGet (p :: t) k = if p.1 = k then some p.2 else jsGet t k := by
  by_cases hp : p.1 = k
  · simp [jsGet, List.find?_cons, hp]
  · simp [jsGet, List.find?_cons, hp]

theorem jsGet_jsSet (m : List (String × α)) (k k' : String) (v : α) :
    jsGet (jsSet m k v) k' = if k' = k then some v else jsGet m k' := by
  induction m with
  | nil =>
    by_cases h : k' = k
    · simp [jsSet, jsGet, h]
    · have hk : ¬ (k = k') := fun hc => h hc.symm
      simp [jsSet, jsGet, h, hk]
  | cons p t ih =>
    rw [jsSet_cons]
    by_cases hp : p.1 = k
    · rw [if_pos hp]
      by_cases h : k' = k
      · subst h; simp [jsGet_cons]
      · rw [if_neg h, jsGet_cons, jsGet_cons]
        have h1 : ¬ (((k, v) : String × α).1 = k') := fun hc => h hc.symm
        have h2 : ¬ (p.1 = k') := fun hc => h (hc ▸ hp ▸ rfl)
        rw [if_neg h1, if_neg h2]
        show jsGet _ k' = jsGet t k'
        unfold jsGet
        rw [find?_map_replace_ne t k k' v h]
    · rw [if_neg hp]
      by_cases h : k' = k
      · subst h
        rw [jsGet_cons, if_neg hp, jsGet_cons, if_neg hp, ih, if_pos rfl]
      · rw [if_neg h, jsGet_cons, jsGet_cons]
        by_cases hq : p.1 = k'
        · rw [if_pos hq, if_pos hq]
        · rw [if_neg hq, if_neg hq, ih, if_neg h]

theorem jsGet_nil (k : String) : jsGet ([] : List (String × α)) k = none := rfl

end JsMapLemmas

end Agency

namespace Agency

section JsMapLemmas2

variable {α : Type}

theorem jsSet_keys_mem (m : List (String × α)) (k : String) (v : α)
    (h : (m.any (fun p => p.1 = k)) = true) :
    (jsSet m k v).map (fun p => p.1) = m.map (fun p => p.1) := by
  simp only [jsSet, if_pos h, List.map_map]
  apply List.map_congr_left
  intro p _
  by_cases hp : p.1 = k
  · simp [hp]
  · simp [hp]

theorem jsSet_keys_new (m : List (String × α)) (k : String) (v : α)
    (h : ¬ (m.any (fun p => p.1 = k)) = true) :
    (jsSet m k v).map (fun p => p.1) = m.map (fun p => p.1) ++ [k] := by
  simp [jsSet, if_neg h]

theorem any_key_iff (m : List (String × α)) (k : String) :
    (m.any (fun p => p.1 = k)) = true ↔ k ∈ m.map (fun p => p.1) := by
  simp only [List.any_eq_true, List.mem_map, decide_eq_true_eq]

theorem jsSet_keys_nodup (m : List (String × α)) (k : String) (v : α)
    (h : (m.map (fun p => p.1)).Nodup) :
    ((jsSet m k v).map (fun p => p.1)).Nodup := by
  by_cases ha : (m.any (fun p => p.1 = k)) = true
  · rw [jsSet_keys_mem m k v ha]; exact h
  · rw [jsSet_keys_new m k v ha]
    refine List.Nodup.append h (List.nodup_singleton k) ?_
    intro x hx hk
    rw [List.mem_singleton] at hk
    subst hk
    exact ha ((any_key_iff m x).mpr hx)

/-- Every pair of a map built by keyed `set`s satisfies `fst = key snd`. -/
def KeyInv (keyf : α → String) (m : List (String × α)) : Prop :=
  ∀ p ∈ m, p.1 = keyf p.2

theorem keyInv_jsSet {keyf : α → String} {m : List (String × α)} (r : α)
    (h : KeyInv keyf m) : KeyInv keyf (jsSet m (keyf r) r) := by
  intro p hp
  by_cases ha : (m.any (fun q => q.1 = keyf r)) = true
  · simp only [jsSet, if_pos ha, List.mem_map] at hp
    obtain ⟨q, hq, he⟩ := hp
    by_cases hq1 : q.1 = keyf r
    · rw [if_pos hq1] at he; subst he; rfl
    · rw [if_neg hq1] at he; subst he; exact h q hq
  · simp only [jsSet, if_neg ha, List.mem_append, List.mem_singleton] at hp
    rcases hp with hp | hp
    · exact h p hp
    · subst hp; rfl

theorem keyInv_jsSet' {keyf : α → String} {m : List (String × α)}
    (k : String) (r : α) (hk : keyf r = k) (h : KeyInv keyf m) :
    KeyInv keyf (jsSet m k r) := hk ▸ keyInv_jsSet r h

theorem keyInv_jsSetAll {keyf : α → String} {m : List (String × α)}
    (l : List α) (h : KeyInv keyf m) : KeyInv keyf (jsSetAll keyf m l) := by
  induction l generalizing m with
  | nil => exact h
  | cons r t ih => exact ih (keyInv_jsSet r h)

theorem jsSetAll_keys_nodup {keyf : α → String} {m : List (String × α)}
    (l : List α) (h : (m.map (fun p => p.1)).Nodup) :
    ((jsSetAll keyf m l).map (fun p => p.1)).Nodup := by
  induction l generalizing m with
  | nil => exact h
  | cons r t ih => exact ih (jsSet_keys_nodup m (keyf r) r h)

/-- The last element of `l` whose key is `k` (JS last-write-wins view). -/
def lastWith (keyf : α → String) (l : List α) (k : String) : Option α :=
  l.reverse.find? (fun r => keyf r = k)

theorem lastWith_nil (keyf : α → String) (k : String) :
    lastWith keyf [] k = none := rfl

theorem lastWith_cons (keyf : α → String) (r : α) (t : List α) (k : String) :
    lastWith keyf (r :: t) k =
      match lastWith keyf t k with
      | some x => some x
      | none => if keyf r = k then some r else none := by
  unfold lastWith
  rw [List.reverse_cons, List.find?_append]
  cases h : List.find? (fun r => decide (keyf r = k)) t.reverse
  · simp only [Option.none_orElse]
    by_cases hr : keyf r = k <;> simp [List.find?, hr]
  · simp

theorem jsGet_jsSetAll {keyf : α → String} (m : List (String × α))
    (l : List α) (k : String) :
    jsGet (jsSetAll keyf m l) k =
      match lastWith keyf l k with
      | some r => some r
      | none => jsGet m k := by
  induction l generalizing m with
  | nil => simp [jsSetAll, lastWith_nil]
  | cons r t ih =>
    show jsGet (jsSetAll keyf (jsSet m (keyf r) r) t) k = _
    rw [ih, lastWith_cons]
    cases hl : lastWith keyf t k
    · rw [jsGet_jsSet]
      by_cases hr : keyf r = k
      · simp [hr]
      · have : ¬ (k = keyf r) := fun hc => hr hc.symm
        simp [hr, this]
    · simp

theorem keys_mono_jsSet (m : List (String × α)) (k k' : String) (v : α)
    (h : k ∈ m.map (fun p => p.1)) :
    k ∈ (jsSet m k' v).map (fun p => p.1) := by
  by_cases ha : (m.any (fun q => q.1 = k')) = true
  · rw [jsSet_keys_mem _ _ _ ha]; exact h
  · rw [jsSet_keys_new _ _ _ ha]; exact List.mem_append_left _ h

theorem keys_mono_jsSetAll {keyf : α → String} (m : List (String × α))
    (l : List α) (k : String) (h : k ∈ m.map (fun p => p.1)) :
    k ∈ (jsSetAll keyf m l).map (fun p => p.1) := by
  induction l generalizing m with
  | nil => exact h
  | cons x t ih => exact ih _ (keys_mono_jsSet m k (keyf x) x h)

theorem jsSet_key_self (m : List (String × α)) (k : String) (v : α) :
    k ∈ (jsSet m k v).map (fun p => p.1) := by
  by_cases ha : (m.any (fun q => q.1 = k)) = true
  · rw [jsSet_keys_mem _ _ _ ha]; exact (any_key_iff m _).mp ha
  · rw [jsSet_keys_new _ _ _ ha]; simp

theorem jsSetAll_key_mem {keyf : α → String} (m : List (String × α))
    (l : List α) (r : α) (h : r ∈ l) :
    keyf r ∈ (jsSetAll keyf m l).map (fun p => p.1) := by
  induction l generalizing m with
  | nil => cases h
  | cons x t ih =>
    rcases List.mem_cons.mp h with rfl | ht
    · exact keys_mono_jsSetAll _ t _ (jsSet_key_self m (keyf r) r)
    · exact ih _ ht

theorem values_mem_of_jsSet (m : List (String × α))
    (k : String) (v : α) (p : String × α) (hp : p ∈ jsSet m k v) :
    p ∈ m ∨ p = (k, v) := by
  by_cases ha : (m.any (fun q => q.1 = k)) = true
  · simp only [jsSet, if_pos ha, List.mem_map] at hp
    obtain ⟨q, hq, he⟩ := hp
    by_cases hq1 : q.1 = k
    · rw [if_pos hq1] at he; right; exact he.symm
    · rw [if_neg hq1] at he; left; exact he ▸ hq
  · simp only [jsSet, if_neg ha, List.mem_append, List.mem_singleton] at hp
    rcases hp with hp | hp
    · left; exact hp
    · right; exact hp

theorem values_mem_of_jsSetAll (keyf : α → String) (m : List (String × α))
    (l : List α) (p : String × α) (hp : p ∈ jsSetAll keyf m l) :
    p ∈ m ∨ p.2 ∈ l := by
  induction l generalizing m with
  | nil => left; exact hp
  | cons r t ih =>
    rcases ih (jsSet m (keyf r) r) hp with h | h
    · rcases values_mem_of_jsSet m (keyf r) r p h with h' | h'
      · left; exact h'
      · right; rw [h']; exact List.mem_cons_self r t
    · right; exact List.mem_cons_of_mem r h

end JsMapLemmas2

end Agency

namespace Agency

section JsMapLemmas3

variable {α : Type}

theorem jsGet_eq_none_of_not_mem (m : List (String × α)) (k : String)
    (h : k ∉ m.map (fun p => p.1)) : jsGet m k = none := by
  unfold jsGet
  rw [List.find?_eq_none.mpr]
  · rfl
  · intro p hp
    simp only [decide_eq_true_eq]
    exact fun hc => h (hc ▸ List.mem_map_of_mem (fun q => q.1) hp)

theorem jsMap_ext {m₁ m₂ : List (String × α)}
    (hk : m₁.map (fun p => p.1) = m₂.map (fun p => p.1))
    (hn : (m₁.map (fun p => p.1)).Nodup)
    (hg : ∀ k, jsGet m₁ k = jsGet m₂ k) : m₁ = m₂ := by
  induction m₁ generalizing m₂ with
  | nil =>
    cases m₂ with
    | nil => rfl
    | cons q s => simp at hk
  | cons p t ih =>
    cases m₂ with
    | nil => simp at hk
    | cons q s =>
      simp only [List.map_cons, List.cons.injEq] at hk
      obtain ⟨hk1, hk2⟩ := hk
      have h1 := hg p.1
      rw [jsGet_cons, jsGet_cons, if_pos rfl, if_pos hk1.symm] at h1
      have hpq : p = q := Prod.ext hk1 (Option.some.inj h1)
      subst hpq
      simp only [List.map_cons, List.nodup_cons] at hn
      have ht : t = s := by
        apply ih hk2 hn.2
        intro k
        by_cases hkp : k = p.1
        · rw [hkp, jsGet_eq_none_of_not_mem t p.1 hn.1,
            jsGet_eq_none_of_not_mem s p.1 (hk2 ▸ hn.1)]
        · have := hg k
          rw [jsGet_cons, jsGet_cons] at this
          by_cases hq : p.1 = k
          · exact absurd hq.symm hkp
          · rwa [if_neg hq, if_neg hq] at this
      rw [ht]

theorem jsSetAll_cons_out {keyf : α → String} (p : String × α)
    (m : List (String × α)) (l : List α)
    (h : ∀ r ∈ l, keyf r ≠ p.1) :
    jsSetAll keyf (p :: m) l = p :: jsSetAll keyf m l := by
  induction l generalizing m with
  | nil => rfl
  | cons x t ih =>
    show jsSetAll keyf (jsSet (p :: m) (keyf x) x) t = _
    rw [jsSet_cons,
      if_neg (fun hc => h x (List.mem_cons_self x t) hc.symm)]
    exact ih _ (fun r hr => h r (List.mem_cons_of_mem x hr))

theorem jsSetAll_rebuild {keyf : α → String} (m : List (String × α))
    (hi : KeyInv keyf m) (hn : (m.map (fun p => p.1)).Nodup) :
    jsSetAll keyf [] (m.map (fun p => p.2)) = m := by
  induction m with
  | nil => rfl
  | cons p t ih =>
    simp only [List.map_cons, List.nodup_cons] at hn
    have hp1 : p.1 = keyf p.2 := hi p (List.mem_cons_self p t)
    show jsSetAll keyf (jsSet [] (keyf p.2) p.2) (t.map (fun q => q.2)) = _
    have hset : jsSet ([] : List (String × α)) (keyf p.2) p.2 = [p] := by
      simp [jsSet]
      exact Prod.ext hp1.symm rfl
    rw [hset, jsSetAll_cons_out p [] (t.map (fun q => q.2)) ?side]
    · rw [ih (fun q hq => hi q (List.mem_cons_of_mem p hq)) hn.2]
    case side =>
      intro r hr
      obtain ⟨q, hq, he⟩ := List.mem_map.mp hr
      have hkr : keyf r = q.1 := by
        rw [← he, ← hi q (List.mem_cons_of_mem p hq)]
      rw [hkr]
      exact fun hc => hn.1 (hc ▸ List.mem_map_of_mem (fun z => z.1) hq)

theorem keys_jsSetAll_no_new {keyf : α → String} (m : List (String × α))
    (l : List α) (h : ∀ r ∈ l, keyf r ∈ m.map (fun p => p.1)) :
    (jsSetAll keyf m l).map (fun p => p.1) = m.map (fun p => p.1) := by
  induction l generalizing m with
  | nil => rfl
  | cons x t ih =>
    show (jsSetAll keyf (jsSet m (keyf x) x) t).map _ = _
    have hx : (m.any (fun q => q.1 = keyf x)) = true :=
      (any_key_iff m (keyf x)).mpr (h x (List.mem_cons_self x t))
    rw [ih _ ?inner, jsSet_keys_mem m (keyf x) x hx]
    case inner =>
      intro r hr
      rw [jsSet_keys_mem m (keyf x) x hx]
      exact h r (List.mem_cons_of_mem x hr)

theorem jsSetAll_absorb {keyf : α → String} (m : List (String × α))
    (l : List α) (hn : (m.map (fun p => p.1)).Nodup) :
    jsSetAll keyf (jsSetAll keyf m l) l = jsSetAll keyf m l := by
  apply jsMap_ext
  · apply keys_jsSetAll_no_new
    intro r hr
    exact jsSetAll_key_mem m l r hr
  · exact jsSetAll_keys_nodup l (jsSetAll_keys_nodup l hn)
  · intro k
    rw [jsGet_jsSetAll, jsGet_jsSetAll]
    cases hl : lastWith keyf l k <;> simp [hl]

theorem values_keys {keyf : α → String} (m : List (String × α))
    (hi : KeyInv keyf m) :
    (m.map (fun p => p.2)).map keyf = m.map (fun p => p.1) := by
  induction m with
  | nil => rfl
  | cons p t ih =>
    simp only [List.map_cons, List.cons.injEq]
    exact ⟨(hi p (List.mem_cons_self p t)).symm,
      ih (fun q hq => hi q (List.mem_cons_of_mem p hq))⟩

theorem find_values {keyf : α → String} (m : List (String × α)) (k : String)
    (hi : KeyInv keyf m) :
    (m.map (fun p => p.2)).find? (fun r => keyf r = k) =
      (m.find? (fun p => p.1 = k)).map (fun p => p.2) := by
  induction m with
  | nil => rfl
  | cons p t ih =>
    have hp1 : p.1 = keyf p.2 := hi p (List.mem_cons_self p t)
    simp only [List.map_cons, List.find?_cons]
    by_cases hq : keyf p.2 = k
    · rw [show (decide (keyf p.2 = k)) = true by simpa using hq,
        show (decide (p.1 = k)) = true by simpa using hp1 ▸ hq]
      rfl
    · rw [show (decide (keyf p.2 = k)) = false by simpa using hq,
        show (decide (p.1 = k)) = false by
          simpa using fun hc => hq (hp1 ▸ hc)]
      exact ih (fun q hq' => hi q (List.mem_cons_of_mem p hq'))

end JsMapLemmas3

end Agency

namespace Agency.Store

open Agency

theorem filter_map_replace {β : Type} (keyf : β → String) (k : String)
    (r : β) (hk : keyf r = k) (l : List β) :
    (l.map (fun s => if keyf s = k then r else s)).filter
        (fun s => !(decide (keyf s = k))) =
      l.filter (fun s => !(decide (keyf s = k))) := by
  induction l with
  | nil => rfl
  | cons s t ih =>
    by_cases hs : keyf s = k
    · simp only [List.map_cons, if_pos hs, List.filter_cons]
      rw [show (!(decide (keyf r = k))) = false by simp [hk],
        show (!(decide (keyf s = k))) = false by simp [hs]]
      exact ih
    · simp only [List.map_cons, if_neg hs, List.filter_cons]
      rw [show (!(decide (keyf s = k))) = true by simp [hs]]
      rw [ih]

theorem keyInv_nil (keyf : StoredInsightRecord → String) :
    KeyInv keyf ([] : List (String × StoredInsightRecord)) :=
  fun p hp => absurd hp (List.not_mem_nil p)

theorem upsert_twice (store records : List StoredInsightRecord) :
    upsertStoredInsights (upsertStoredInsights store records) records =
      upsertStoredInsights store records := by
  by_cases hr : records.length = 0
  · simp [upsertStoredInsights, hr]
  · simp only [upsertStoredInsights, if_neg hr]
    unfold upsertCore
    have hinv0 : KeyInv (fun s : StoredInsightRecord => s.resourceId)
        (jsSetAll (fun s => s.resourceId) [] store) :=
      keyInv_jsSetAll store (keyInv_nil _)
    have hinv : KeyInv (fun s : StoredInsightRecord => s.resourceId)
        (jsSetAll (fun s => s.resourceId)
          (jsSetAll (fun s => s.resourceId) [] store) records) :=
      keyInv_jsSetAll records hinv0
    have hn0 : ((jsSetAll (fun s : StoredInsightRecord => s.resourceId)
        [] store).map (fun p => p.1)).Nodup :=
      jsSetAll_keys_nodup store (by simp)
    have hn1 : ((jsSetAll (fun s : StoredInsightRecord => s.resourceId)
        (jsSetAll (fun s => s.resourceId) [] store) records).map
          (fun p => p.1)).Nodup :=
      jsSetAll_keys_nodup records hn0
    rw [jsSetAll_rebuild _ hinv hn1, jsSetAll_absorb _ records hn0]

theorem upsert_nodup (store records : List StoredInsightRecord)
    (hn : (store.map (fun s => s.resourceId)).Nodup) :
    ((upsertStoredInsights store records).map
      (fun s => s.resourceId)).Nodup := by
  by_cases hr : records.length = 0
  · simpa [upsertStoredInsights, hr] using hn
  · simp only [upsertStoredInsights, if_neg hr]
    unfold upsertCore
    have hinv : KeyInv (fun s : StoredInsightRecord => s.resourceId)
        (jsSetAll (fun s => s.resourceId)
          (jsSetAll (fun s => s.resourceId) [] store) records) :=
      keyInv_jsSetAll records (keyInv_jsSetAll store (keyInv_nil _))
    rw [show (fun s : StoredInsightRecord => s.resourceId) =
      (fun s : StoredInsightRecord => s.resourceId) from rfl]
    rw [values_keys _ hinv]
    exact jsSetAll_keys_nodup records (jsSetAll_keys_nodup store (by simp))

theorem upsert_single_found (store : List StoredInsightRecord)
    (r : StoredInsightRecord) :
    storeFind (upsertStoredInsights store [r]) r.resourceId = some r := by
  have hr : ¬ ([r].length = 0) := by simp
  simp only [upsertStoredInsights, if_neg hr]
  unfold upsertCore storeFind
  have hinv : KeyInv (fun s : StoredInsightRecord => s.resourceId)
      (jsSetAll (fun s => s.resourceId)
        (jsSetAll (fun s => s.resourceId) [] store) [r]) :=
    keyInv_jsSetAll [r] (keyInv_jsSetAll store (keyInv_nil _))
  rw [find_values _ r.resourceId hinv]
  show jsGet _ r.resourceId = some r
  show jsGet (jsSet (jsSetAll (fun s => s.resourceId) [] store)
    r.resourceId r) r.resourceId = some r
  rw [jsGet_jsSet, if_pos rfl]

theorem upsert_single_others (store : List StoredInsightRecord)
    (r : StoredInsightRecord)
    (hn : (store.map (fun s => s.resourceId)).Nodup) :
    (upsertStoredInsights store [r]).filter
        (fun s => !(decide (s.resourceId = r.resourceId))) =
      store.filter (fun s => !(decide (s.resourceId = r.resourceId))) := by
  have hr : ¬ ([r].length = 0) := by simp
  simp only [upsertStoredInsights, if_neg hr]
  unfold upsertCore
  have hpair : jsSetAll (fun s : StoredInsightRecord => s.resourceId) [] store =
      store.map (fun s => (s.resourceId, s)) := by
    have h1 := @jsSetAll_rebuild StoredInsightRecord
      (fun s : StoredInsightRecord => s.resourceId)
      (store.map (fun s => (s.resourceId, s)))
      (by intro p hp
          obtain ⟨s, hs, he⟩ := List.mem_map.mp hp
          rw [← he])
      (by rw [List.map_map]; exact hn)
    rw [List.map_map] at h1
    have h2 : store.map ((fun p : String × StoredInsightRecord => p.2) ∘
        (fun s => (s.resourceId, s))) = store := by
      have hc : ((fun p : String × StoredInsightRecord => p.2) ∘
          (fun s : StoredInsightRecord => (s.resourceId, s))) =
          fun s => s := rfl
      rw [hc]
      exact List.map_id store
    rw [h2] at h1
    exact h1
  have hstep : jsSetAll (fun s : StoredInsightRecord => s.resourceId)
      (jsSetAll (fun s => s.resourceId) [] store) [r] =
      jsSet (store.map (fun s => (s.resourceId, s))) r.resourceId r := by
    rw [hpair]
    rfl
  rw [hstep]
  by_cases ha : ((store.map (fun s => (s.resourceId, s))).any
      (fun q => q.1 = r.resourceId)) = true
  · simp only [jsSet, if_pos ha, List.map_map]
    have hmaps : store.map
        ((fun p : String × StoredInsightRecord => p.2) ∘
          ((fun q : String × StoredInsightRecord =>
            if q.1 = r.resourceId then (r.resourceId, r) else q) ∘
            (fun s => (s.resourceId, s)))) =
        store.map (fun s =>
          if s.resourceId = r.resourceId then r else s) := by
      apply List.map_congr_left
      intro s _
      by_cases hs : s.resourceId = r.resourceId
      · simp [Function.comp, hs]
      · simp [Function.comp, hs]
    rw [hmaps, filter_map_replace (fun s => s.resourceId) r.resourceId r rfl]
  · simp only [jsSet, if_neg ha, List.map_append, List.map_map,
      List.filter_append]
    have h2 : store.map ((fun p : String × StoredInsightRecord => p.2) ∘
        (fun s => (s.resourceId, s))) = store := by
      have hc : ((fun p : String × StoredInsightRecord => p.2) ∘
          (fun s : StoredInsightRecord => (s.resourceId, s))) =
          fun s => s := rfl
      rw [hc]
      exact List.map_id store
    rw [h2]
    simp

/-- **C7**: the insight-store upsert is idempotent and last-write-wins
keyed by `resourceId`: for every store state (with one record per
`resourceId`) and record list, upserting the same records twice leaves
the store equal to upserting them once, the result holds at most one
record per `resourceId`, upserting one record replaces the entire record
stored under its `resourceId` with the new one, and records under other
`resourceId`s are carried over unchanged. -/
theorem upsertStoredInsights_idempotent_lastWriteWins
    (store records : List StoredInsightRecord) (r : StoredInsightRecord)
    (hn : (store.map (fun s => s.resourceId)).Nodup) :
    upsertStoredInsights (upsertStoredInsights store records) records =
        upsertStoredInsights store records ∧
      ((upsertStoredInsights store records).map
          (fun s => s.resourceId)).Nodup ∧
      storeFind (upsertStoredInsights store [r]) r.resourceId = some r ∧
      (upsertStoredInsights store [r]).filter
          (fun s => !(decide (s.resourceId = r.resourceId))) =
        store.filter (fun s => !(decide (s.resourceId = r.resourceId))) :=
  ⟨upsert_twice store records, upsert_nodup store records hn,
    upsert_single_found store r, upsert_single_others store r hn⟩

/-- Witness for C7 at a concrete store and record list. -/
theorem upsertStoredInsights_idempotent_lastWriteWins_witness :
    upsertStoredInsights
        (upsertStoredInsights [Agency.Examples.storedRec]
          [Agency.Examples.storedRecV2])
        [Agency.Examples.storedRecV2] =
      upsertStoredInsights [Agency.Examples.storedRec]
        [Agency.Examples.storedRecV2] ∧
    storeFind
        (upsertStoredInsights [Agency.Examples.storedRec]
          [Agency.Examples.storedRecV2])
        Agency.Examples.storedRecV2.resourceId =
      some Agency.Examples.storedRecV2 :=
  ⟨(upsertStoredInsights_idempotent_lastWriteWins
      [Agency.Examples.storedRec] [Agency.Examples.storedRecV2]
      Agency.Examples.storedRecV2 (by simp)).1,
    (upsertStoredInsights_idempotent_lastWriteWins
      [Agency.Examples.storedRec] [Agency.Examples.storedRecV2]
      Agency.Examples.storedRecV2 (by simp)).2.2.1⟩

end Agency.Store

namespace Agency.Store

/-- Counterexample to **C8** as stated: a failing read of the backing
store is answered with the empty record list — byte-for-byte the same
normal empty result an empty store produces, and the function's return
value carries no error field at all; the failure is only logged. -/
theorem loadStoredInsights_failure_counterexample :
    (loadStoredInsights .unreadable).records =
        (loadStoredInsights (.records [])).records ∧
      (loadStoredInsights .unreadable).records = [] ∧
      (loadStoredInsights .unreadable).loggedError = true :=
  ⟨rfl, rfl, rfl⟩

/-- **C8 (amended)**: the store self-initializes to an empty collection
when the backing file is missing; after that, a failed read or parse is
logged to the console and recovered by returning the empty record list —
the caller receives a normal empty result indistinguishable from an
empty store (no error field; a parseable non-array is not even logged);
well-formed content is returned as-is. -/
theorem loadStoredInsights_spec
    (l : List StoredInsightRecord) :
    loadStoredInsights .missing =
        { state := .records [], records := [], loggedError := false } ∧
      loadStoredInsights .unreadable =
        { state := .unreadable, records := [], loggedError := true } ∧
      loadStoredInsights .unparseable =
        { state := .unparseable, records := [], loggedError := true } ∧
      loadStoredInsights .nonArray =
        { state := .nonArray, records := [], loggedError := false } ∧
      loadStoredInsights (.records l) =
        { state := .records l, records := l, loggedError := false } :=
  ⟨rfl, rfl, rfl, rfl, rfl⟩

end Agency.Store

namespace Agency.Insights

theorem string_append_dot_ne (s : String) : s ++ "." ≠ "" := by
  intro h
  have h1 := congrArg String.data h
  rw [String.data_append] at h1
  simp at h1

theorem buildHeuristicSuggestion_summary_shape (profile : CandidateProfile) :
    ∃ t, (buildHeuristicSuggestion profile).summary = t ++ "." :=
  ⟨_, rfl⟩

theorem buildHeuristicSuggestion_summary_ne (profile : CandidateProfile) :
    (buildHeuristicSuggestion profile).summary ≠ "" := by
  obtain ⟨t, ht⟩ := buildHeuristicSuggestion_summary_shape profile
  rw [ht]
  exact string_append_dot_ne t

/-- **C6**: whenever the external provider is not configured,
`generateInsights` returns `usingAzure = false`, its insights are exactly
the heuristic suggestions for the selected candidates, and every returned
insight's summary is a non-empty string; the branch is a total function
of its inputs (it performs no provider call and never throws). -/
theorem generateInsights_unconfigured (generatedAt : String)
    (outcome : ProviderOutcome) (payload : InsightPayload) :
    (generateInsights false generatedAt outcome payload).usingAzure = false ∧
      (generateInsights false generatedAt outcome payload).insights =
        (computeCandidateProfiles payload).map buildHeuristicSuggestion ∧
      ∀ i ∈ (generateInsights false generatedAt outcome payload).insights,
        i.summary ≠ "" := by
  refine ⟨rfl, rfl, ?_⟩
  intro i hi
  have hi' : i ∈ (computeCandidateProfiles payload).map
      buildHeuristicSuggestion := hi
  obtain ⟨profile, _, he⟩ := List.mem_map.mp hi' 
  rw [← he]
  exact buildHeuristicSuggestion_summary_ne profile

end Agency.Insights

namespace Agency

theorem max_min_eq_clamp (x : ℚ) : max (min x 1) 0 = clamp x 0 1 := by
  unfold clamp
  rcases le_total x 0 with h0 | h0
  · rw [min_eq_left (le_trans h0 zero_le_one), max_eq_right h0,
      max_eq_left h0, min_eq_right zero_le_one]
  · rcases le_total x 1 with h1 | h1
    · rw [min_eq_left h1, max_eq_left h0, max_eq_right h0, min_eq_right h1]
    · rw [min_eq_right h1, max_eq_left zero_le_one, max_eq_right h0,
        min_eq_left h1]

end Agency

namespace Agency.Core

theorem pairRecommendation_spec (project : Project) (resource : Resource)
    (rec : Recommendation)
    (h : pairRecommendation project resource = some rec) :
    rec.score = clamp (rec.matchDetail.skillCoverage * (1/2) +
        rec.matchDetail.availabilityScore * (3/10) +
        rec.matchDetail.coordinationScore * (1/5)) 0 1 ∧
      rec.matchDetail.availabilityScore = clamp resource.availability 0 1 ∧
      (rec.matchDetail.coordinationScore = 1 ↔
        resource.macroArea.trim.toLower = project.macroArea.trim.toLower) ∧
      (rec.matchDetail.coordinationScore = 1 ∨
        rec.matchDetail.coordinationScore = 0) ∧
      rec.matchDetail.skillCoverage =
        (if project.needs.length = 0 then 0
         else ((resource.skills.filterMap
            (fun skill => needLookup project.needs skill.id)).length : ℚ) /
          (project.needs.length : ℚ)) ∧
      rec.matchedSkills ≠ [] ∧
      0 < rec.matchDetail.availabilityScore ∧
      0 ≤ rec.score ∧ rec.score ≤ 1 := by
  unfold pairRecommendation at h
  by_cases hg : (resource.skills.filterMap
      (fun skill => needLookup project.needs skill.id)).length = 0 ∨
      resource.availability ≤ 0
  · rw [if_pos hg] at h; cases h
  · rw [if_neg hg] at h
    injection h with h'
    subst h'
    push_neg at hg
    obtain ⟨hlen, havail⟩ := hg
    refine ⟨rfl, rfl, ?_, ?_, rfl, ?_, ?_, clamp_nonneg _, clamp_le_one _⟩
    · show (if resource.macroArea.trim.toLower =
          project.macroArea.trim.toLower then (1 : ℚ) else 0) = 1 ↔ _
      by_cases hc : resource.macroArea.trim.toLower =
          project.macroArea.trim.toLower
      · simp [hc]
      · simp [hc]
    · show (if resource.macroArea.trim.toLower =
          project.macroArea.trim.toLower then (1 : ℚ) else 0) = 1 ∨ _ = 0
      by_cases hc : resource.macroArea.trim.toLower =
          project.macroArea.trim.toLower
      · left; simp [hc]
      · right; simp [hc]
    · show (resource.skills.filterMap
          (fun skill => needLookup project.needs skill.id)).map
            (fun need => need.label) ≠ []
      intro hms
      have hl := congrArg List.length hms
      rw [List.length_map] at hl
      exact hlen hl
    · show (0 : ℚ) < clamp resource.availability 0 1
      exact (clamp_pos_iff resource.availability).mpr havail

theorem mem_buildRecommendations {resources : List Resource}
    {projects : List Project} {r : Recommendation}
    (hr : r ∈ buildRecommendations resources projects) :
    ∃ project ∈ projects, ∃ resource ∈ resources,
      pairRecommendation project resource = some r := by
  simp only [buildRecommendations] at hr
  rw [sortByKeyDesc_mem] at hr
  simp only [enumeratePairs] at hr
  obtain ⟨project, hproj, hr⟩ := List.mem_flatMap.mp hr
  obtain ⟨resource, hres, he⟩ := List.mem_filterMap.mp hr
  exact ⟨project, hproj, resource, hres, he⟩

end Agency.Core

namespace Agency.Dataset

theorem datasetPairRecommendation_spec (project : DProject)
    (resource : DResource)
    (rec : DRecommendation)
    (h : pairRecommendation project resource = some rec) :
    rec.score = clamp (rec.matchDetail.skillCoverage * (7/10) +
        rec.matchDetail.availabilityScore * (1/5) +
        rec.matchDetail.coordinationScore * (1/10)) 0 1 ∧
      rec.matchedSkills ≠ [] ∧
      0 ≤ rec.score ∧ rec.score ≤ 1 := by
  unfold pairRecommendation at h
  by_cases hs : resource.skills.length = 0
  · rw [if_pos hs] at h; cases h
  · rw [if_neg hs] at h
    by_cases hm : (resource.skills.filter (fun skill =>
        (project.needs.map (fun need =>
          (need.label, normalizeLabel need.label))).any
            (fun need => need.2 = normalizeLabel skill.name))).length = 0
    · rw [if_pos hm] at h; cases h
    · rw [if_neg hm] at h
      injection h with h'
      subst h'
      refine ⟨?_, ?_, ?_, ?_⟩
      · show max (min _ 1) 0 = clamp _ 0 1
        rw [max_min_eq_clamp]
      · show (List.filter _ resource.skills).map (fun skill => skill.name) ≠ []
        intro hms
        have hl := congrArg List.length hms
        rw [List.length_map] at hl
        exact hm hl
      · show (0 : ℚ) ≤ max (min _ 1) 0
        rw [max_min_eq_clamp]
        exact clamp_nonneg _
      · show max (min _ 1) 0 ≤ (1 : ℚ)
        rw [max_min_eq_clamp]
        exact clamp_le_one _

theorem datasetMem_buildRecommendations {resources : List DResource}
    {projects : List DProject} {d : DRecommendation}
    (hd : d ∈ buildRecommendations resources projects) :
    ∃ project ∈ projects, ∃ resource ∈ resources,
      pairRecommendation project resource = some d := by
  simp only [buildRecommendations] at hd
  rw [sortByKeyDesc_mem] at hd
  simp only [enumeratePairs] at hd
  obtain ⟨project, hproj, hd⟩ := List.mem_flatMap.mp hd
  by_cases hn : project.needs.length = 0
  · rw [if_pos hn] at hd; cases hd
  · rw [if_neg hn] at hd
    obtain ⟨resource, hres, he⟩ := List.mem_filterMap.mp hd
    exact ⟨project, hproj, resource, hres, he⟩

end Agency.Dataset

namespace Agency

open Agency.Core Agency.Dataset Agency.Examples

/-- Counterexample to **C1** as stated: the API dataset's
derive-from-scratch builder (`buildRecommendations` in
`apps/api/src/data/dataset.ts`, one of the claim's two cited builders)
emits a recommendation whose sub-scores are (1/2, 0, 0) but whose score
is 7/20 = clamp(0.7·0.5), not clamp(0.5·0.5) = 1/4 as the claimed
formula requires. -/
theorem buildRecommendations_weights_counterexample :
    (Dataset.buildRecommendations [dResourceNoAvail] [dProjectTwoNeeds]).map
        (fun d => (d.matchDetail.skillCoverage,
          d.matchDetail.availabilityScore,
          d.matchDetail.coordinationScore, d.score)) =
      [(1/2, 0, 0, 7/20)] ∧
    clamp ((1/2) * (1/2) + 0 * (3/10) + 0 * (1/5)) 0 1 = 1/4 ∧
    (7/20 : ℚ) ≠ 1/4 := by
  refine ⟨?_, ?_, ?_⟩
  · with_unfolding_all decide
  · with_unfolding_all decide
  · with_unfolding_all decide

/-- **C1 (amended)**: the mock-data core builder scores every emitted
recommendation with `clamp(0.5·skillCoverage + 0.3·availabilityScore +
0.2·coordinationScore, 0, 1)` where `availabilityScore =
clamp(resource.availability, 0, 1)`, `coordinationScore = 1` exactly when
the macro-areas agree after trimming and lowercasing, and `skillCoverage`
is the matched-need count over the project's need count (0 without
needs); the API dataset builder instead uses weights 0.7/0.2/0.1 over
the same shape of sub-scores.  In both builders every emitted score lies
in [0,1]. -/
theorem buildRecommendations_score_weights
    (resources : List Core.Resource) (projects : List Core.Project)
    (r : Core.Recommendation)
    (hr : r ∈ Core.buildRecommendations resources projects)
    (project : Core.Project) (resource : Core.Resource)
    (rec : Core.Recommendation)
    (hp : Core.pairRecommendation project resource = some rec)
    (dresources : List Dataset.DResource)
    (dprojects : List Dataset.DProject) (d : Dataset.DRecommendation)
    (hd : d ∈ Dataset.buildRecommendations dresources dprojects) :
    (r.score = clamp (r.matchDetail.skillCoverage * (1/2) +
        r.matchDetail.availabilityScore * (3/10) +
        r.matchDetail.coordinationScore * (1/5)) 0 1 ∧
      0 ≤ r.score ∧ r.score ≤ 1) ∧
    (rec.matchDetail.availabilityScore = clamp resource.availability 0 1 ∧
      (rec.matchDetail.coordinationScore = 1 ↔
        resource.macroArea.trim.toLower = project.macroArea.trim.toLower) ∧
      rec.matchDetail.skillCoverage =
        (if project.needs.length = 0 then 0
         else ((resource.skills.filterMap
            (fun skill => Core.needLookup project.needs skill.id)).length : ℚ) /
          (project.needs.length : ℚ))) ∧
    (d.score = clamp (d.matchDetail.skillCoverage * (7/10) +
        d.matchDetail.availabilityScore * (1/5) +
        d.matchDetail.coordinationScore * (1/10)) 0 1 ∧
      0 ≤ d.score ∧ d.score ≤ 1) := by
  obtain ⟨pr, _, res, _, hpair⟩ := Core.mem_buildRecommendations hr
  have hspec := Core.pairRecommendation_spec pr res r hpair
  have hspec2 := Core.pairRecommendation_spec project resource rec hp
  obtain ⟨dp, _, dres, _, hdpair⟩ := Dataset.datasetMem_buildRecommendations hd
  have hdspec := Dataset.datasetPairRecommendation_spec dp dres d hdpair
  exact ⟨⟨hspec.1, hspec.2.2.2.2.2.2.2.1, hspec.2.2.2.2.2.2.2.2⟩,
    ⟨hspec2.2.1, hspec2.2.2.1, hspec2.2.2.2.2.1⟩,
    ⟨hdspec.1, hdspec.2.2.1, hdspec.2.2.2⟩⟩

/-- Witness for C1 at concrete inputs (the spec's worked 0.57 example on
the core side, and a one-skill resource on the dataset side). -/
theorem buildRecommendations_score_weights_witness :
    coreRec ∈ Core.buildRecommendations [cResource] [cProject] ∧
    Core.pairRecommendation cProject cResource = some coreRec ∧
    datasetRec ∈ Dataset.buildRecommendations [dResourceNoAvail]
      [dProjectTwoNeeds] ∧
    coreRec.score = clamp (coreRec.matchDetail.skillCoverage * (1/2) +
      coreRec.matchDetail.availabilityScore * (3/10) +
      coreRec.matchDetail.coordinationScore * (1/5)) 0 1 ∧
    datasetRec.score = clamp (datasetRec.matchDetail.skillCoverage * (7/10) +
      datasetRec.matchDetail.availabilityScore * (1/5) +
      datasetRec.matchDetail.coordinationScore * (1/10)) 0 1 := by
  have h1 : coreRec ∈ Core.buildRecommendations [cResource] [cProject] := by
    with_unfolding_all decide
  have h2 : Core.pairRecommendation cProject cResource = some coreRec := by
    with_unfolding_all decide
  have h3 : datasetRec ∈ Dataset.buildRecommendations [dResourceNoAvail]
      [dProjectTwoNeeds] := by
    with_unfolding_all decide
  have h := buildRecommendations_score_weights [cResource] [cProject]
    coreRec h1 cProject cResource coreRec h2 [dResourceNoAvail]
    [dProjectTwoNeeds] datasetRec h3
  exact ⟨h1, h2, h3, h.1.1, h.2.2.1⟩

end Agency

namespace Agency

/-- Counterexample to **C3** as stated: the API dataset's
derive-from-scratch builder produces a recommendation for a resource
whose availability is exactly 0 (the pair has one matched skill), so the
availability-≤-0 exclusion does not hold on that cited path. -/
theorem buildRecommendations_exclusion_counterexample :
    Agency.Examples.dResourceZeroAvail.availability = some 0 ∧
    (Dataset.buildRecommendations [Agency.Examples.dResourceZeroAvail]
        [Agency.Examples.dProjectTwoNeeds]).length = 1 ∧
    (Dataset.buildRecommendations [Agency.Examples.dResourceZeroAvail]
        [Agency.Examples.dProjectTwoNeeds]).map
      (fun d => d.matchDetail.availabilityScore) = [0] := by
  refine ⟨rfl, ?_, ?_⟩
  · with_unfolding_all decide
  · with_unfolding_all decide

/-- **C3 (amended)**: in the mock-data core derive-from-scratch path no
recommendation is produced for a pair with zero matched skills or
availability ≤ 0 — every emitted recommendation has a non-empty matched
skill list and a positive availability score; the API dataset builder
enforces only the zero-matched-skills exclusion (its emitted
recommendations always have matched skills, but may come from resources
with availability ≤ 0 or none). -/
theorem buildRecommendations_exclusion
    (resources : List Core.Resource) (projects : List Core.Project)
    (r : Core.Recommendation)
    (hr : r ∈ Core.buildRecommendations resources projects)
    (dresources : List Dataset.DResource)
    (dprojects : List Dataset.DProject) (d : Dataset.DRecommendation)
    (hd : d ∈ Dataset.buildRecommendations dresources dprojects) :
    (r.matchedSkills ≠ [] ∧ 0 < r.matchDetail.availabilityScore) ∧
      d.matchedSkills ≠ [] := by
  obtain ⟨pr, _, res, _, hpair⟩ := Core.mem_buildRecommendations hr
  have hspec := Core.pairRecommendation_spec pr res r hpair
  obtain ⟨dp, _, dres, _, hdpair⟩ := Dataset.datasetMem_buildRecommendations hd
  have hdspec := Dataset.datasetPairRecommendation_spec dp dres d hdpair
  exact ⟨⟨hspec.2.2.2.2.2.1, hspec.2.2.2.2.2.2.1⟩, hdspec.2.1⟩

/-- Witness for C3 at concrete inputs. -/
theorem buildRecommendations_exclusion_witness :
    Agency.Examples.coreRec ∈
        Core.buildRecommendations [Agency.Examples.cResource]
          [Agency.Examples.cProject] ∧
      Agency.Examples.datasetRec ∈
        Dataset.buildRecommendations [Agency.Examples.dResourceNoAvail]
          [Agency.Examples.dProjectTwoNeeds] ∧
      Agency.Examples.coreRec.matchedSkills ≠ [] ∧
      0 < Agency.Examples.coreRec.matchDetail.availabilityScore := by
  have h1 : Agency.Examples.coreRec ∈
      Core.buildRecommendations [Agency.Examples.cResource]
        [Agency.Examples.cProject] := by
    with_unfolding_all decide
  have h2 : Agency.Examples.datasetRec ∈
      Dataset.buildRecommendations [Agency.Examples.dResourceNoAvail]
        [Agency.Examples.dProjectTwoNeeds] := by
    with_unfolding_all decide
  have h := buildRecommendations_exclusion _ _ _ h1 _ _ _ h2
  exact ⟨h1, h2, h.1.1, h.1.2⟩

end Agency

namespace Agency.MockData

open Agency.Core

theorem mem_buildRecommendation_spec (record : AffinityRecord)
    (projectLookup : List (String × Project))
    (resourceLookup : List (String × Resource)) (rec : Recommendation)
    (hmem : rec ∈ buildRecommendation record projectLookup resourceLookup) :
    (0 < record.scoreAfinidade →
      rec.score = clamp record.scoreAfinidade 0 1) ∧
    (¬ 0 < record.scoreAfinidade →
      rec.score = clamp (rec.matchDetail.skillCoverage * (1/2) +
        rec.matchDetail.availabilityScore * (3/10) +
        rec.matchDetail.coordinationScore * (1/5)) 0 1) ∧
    0 ≤ rec.score ∧ rec.score ≤ 1 := by
  unfold buildRecommendation at hmem
  cases hpl : jsGet projectLookup
      (createProjectKey record.siglaSistema record.tituloDemanda) with
  | none => rw [hpl] at hmem; cases hmem
  | some project =>
    rw [hpl] at hmem
    obtain ⟨rawId, _, hmem⟩ := List.mem_flatMap.mp hmem
    cases hrl : jsGet resourceLookup (stripSpaces rawId) with
    | none => simp only [hrl] at hmem; cases hmem
    | some resource =>
      simp only [hrl] at hmem
      rw [List.mem_singleton] at hmem
      subst hmem
      by_cases hpos : 0 < record.scoreAfinidade
      · refine ⟨fun _ => ?_, fun hneg => absurd hpos hneg, ?_, ?_⟩
        · show (if 0 < record.scoreAfinidade then _ else _) = _
          rw [if_pos hpos]
        · show (0:ℚ) ≤ (if 0 < record.scoreAfinidade then _ else _)
          rw [if_pos hpos]; exact clamp_nonneg _
        · show (if 0 < record.scoreAfinidade then _ else _) ≤ (1:ℚ)
          rw [if_pos hpos]; exact clamp_le_one _
      · refine ⟨fun hp => absurd hp hpos, fun _ => ?_, ?_, ?_⟩
        · show (if 0 < record.scoreAfinidade then _ else _) = _
          rw [if_neg hpos]
        · show (0:ℚ) ≤ (if 0 < record.scoreAfinidade then _ else _)
          rw [if_neg hpos]; exact clamp_nonneg _
        · show (if 0 < record.scoreAfinidade then _ else _) ≤ (1:ℚ)
          rw [if_neg hpos]; exact clamp_le_one _

/-- **C2**: in the CSV-sourced affinity path, every recommendation built
for a record that resolves to a known project and resource keeps a
supplied positive affinity score verbatim, clamped to [0,1] (so a
supplied 0.82 yields exactly 0.82 regardless of computed skill
coverage); when the supplied value is not positive — which is what
`parseNumber` produces for an absent or unparseable cell — the score
falls back to `clamp(0.5·skillCoverage + 0.3·availabilityScore +
0.2·coordinationScore, 0, 1)`. -/
theorem buildRecommendation_score_precedence (record : AffinityRecord)
    (projectLookup : List (String × Project))
    (resourceLookup : List (String × Resource)) (rec : Recommendation)
    (hmem : rec ∈ buildRecommendation record projectLookup resourceLookup) :
    (0 < record.scoreAfinidade →
      rec.score = clamp record.scoreAfinidade 0 1) ∧
    (¬ 0 < record.scoreAfinidade →
      rec.score = clamp (rec.matchDetail.skillCoverage * (1/2) +
        rec.matchDetail.availabilityScore * (3/10) +
        rec.matchDetail.coordinationScore * (1/5)) 0 1) :=
  ⟨(mem_buildRecommendation_spec record projectLookup resourceLookup rec
      hmem).1,
    (mem_buildRecommendation_spec record projectLookup resourceLookup rec
      hmem).2.1⟩

/-- Witness for C2: the supplied score 0.82 is kept exactly. -/
theorem buildRecommendation_score_precedence_witness :
    Agency.Examples.affinityRec ∈
        buildRecommendation Agency.Examples.affinityRow
          [(createProjectKey "SIG" "Projeto Um", Agency.Examples.cProject)]
          [("f1", Agency.Examples.cResource)] ∧
      0 < Agency.Examples.affinityRow.scoreAfinidade ∧
      Agency.Examples.affinityRec.score = 82/100 := by
  have h1 : Agency.Examples.affinityRec ∈
      buildRecommendation Agency.Examples.affinityRow
        [(createProjectKey "SIG" "Projeto Um", Agency.Examples.cProject)]
        [("f1", Agency.Examples.cResource)] := by
    with_unfolding_all decide
  have h2 : 0 < Agency.Examples.affinityRow.scoreAfinidade := by
    with_unfolding_all decide
  have h := (buildRecommendation_score_precedence Agency.Examples.affinityRow
    _ _ Agency.Examples.affinityRec h1).1 h2
  refine ⟨h1, h2, ?_⟩
  rw [h]
  with_unfolding_all decide

end Agency.MockData

namespace Agency

open Agency.Core Agency.MockData Agency.Examples

/-- **C10**: every recommendation list returned by matching is sorted in
descending score order; ties preserve the original enumeration order
(for every score value the equal-score sublist equals the pre-sort
enumeration's equal-score sublist); and every emitted score is a
well-defined rational in [0,1] — the embedding of the score pipeline is
total, so no NaN/undefined can appear. -/
theorem recommendations_sorted_stable
    (resources : List Core.Resource) (projects : List Core.Project)
    (records : List AffinityRecord)
    (projectLookup : List (String × Core.Project))
    (resourceLookup : List (String × Core.Resource)) (q : ℚ)
    (r : Core.Recommendation)
    (hr : r ∈ Core.buildRecommendations resources projects)
    (m : Core.Recommendation)
    (hm : m ∈ affinityRecommendations records projectLookup resourceLookup) :
    List.Chain' (fun a b => b.score ≤ a.score)
        (Core.buildRecommendations resources projects) ∧
      (Core.buildRecommendations resources projects).filter
          (fun a => decide (a.score = q)) =
        (Core.enumeratePairs resources projects).filter
          (fun a => decide (a.score = q)) ∧
      (0 ≤ r.score ∧ r.score ≤ 1) ∧
      List.Chain' (fun a b => b.score ≤ a.score)
        (affinityRecommendations records projectLookup resourceLookup) ∧
      (affinityRecommendations records projectLookup resourceLookup).filter
          (fun a => decide (a.score = q)) =
        (records.flatMap (fun record =>
          buildRecommendation record projectLookup resourceLookup)).filter
          (fun a => decide (a.score = q)) ∧
      (0 ≤ m.score ∧ m.score ≤ 1) := by
  refine ⟨?_, ?_, ?_, ?_, ?_, ?_⟩
  · exact sortByKeyDesc_sorted (fun rec : Core.Recommendation => rec.score) _
  · exact sortByKeyDesc_filter (fun rec : Core.Recommendation => rec.score) _ q
  · obtain ⟨pr, _, res, _, hpair⟩ := Core.mem_buildRecommendations hr
    have hspec := Core.pairRecommendation_spec pr res r hpair
    exact ⟨hspec.2.2.2.2.2.2.2.1, hspec.2.2.2.2.2.2.2.2⟩
  · exact sortByKeyDesc_sorted (fun rec : Core.Recommendation => rec.score) _
  · exact sortByKeyDesc_filter (fun rec : Core.Recommendation => rec.score) _ q
  · unfold affinityRecommendations at hm
    rw [sortByKeyDesc_mem] at hm
    obtain ⟨record, _, hm⟩ := List.mem_flatMap.mp hm
    have hspec := mem_buildRecommendation_spec record projectLookup
      resourceLookup m hm
    exact ⟨hspec.2.2.1, hspec.2.2.2⟩

/-- Witness for C10 at concrete inputs. -/
theorem recommendations_sorted_stable_witness :
    coreRec ∈ Core.buildRecommendations [cResource] [cProject] ∧
      affinityRec ∈ affinityRecommendations [affinityRow]
        [(createProjectKey "SIG" "Projeto Um", cProject)]
        [("f1", cResource)] ∧
      List.Chain' (fun a b => b.score ≤ a.score)
        (Core.buildRecommendations [cResource] [cProject]) ∧
      (0 ≤ coreRec.score ∧ coreRec.score ≤ 1) := by
  have h1 : coreRec ∈ Core.buildRecommendations [cResource] [cProject] := by
    with_unfolding_all decide
  have h2 : affinityRec ∈ affinityRecommendations [affinityRow]
      [(createProjectKey "SIG" "Projeto Um", cProject)]
      [("f1", cResource)] := by
    with_unfolding_all decide
  have h := recommendations_sorted_stable [cResource] [cProject]
    [affinityRow] [(createProjectKey "SIG" "Projeto Um", cProject)]
    [("f1", cResource)] 0 coreRec h1 affinityRec h2
  exact ⟨h1, h2, h.1, h.2.2.1⟩

end Agency

namespace Agency

theorem find?_keyed_unique {β : Type} (keyf : β → String) (l : List β)
    (r : β) (hn : (l.map keyf).Nodup) (hr : r ∈ l) :
    l.find? (fun x => keyf x = keyf r) = some r := by
  induction l with
  | nil => cases hr
  | cons x t ih =>
    simp only [List.map_cons, List.nodup_cons] at hn
    rcases List.mem_cons.mp hr with rfl | hrt
    · simp [List.find?_cons]
    · have hx : ¬ (keyf x = keyf r) := by
        intro hc
        exact hn.1 (hc ▸ List.mem_map_of_mem keyf hrt)
      rw [List.find?_cons,
        show (decide (keyf x = keyf r)) = false by simpa using hx]
      exact ih hn.2 hrt

theorem jsGet_keyInv {α : Type} {keyf : α → String}
    {m : List (String × α)} {k : String} {v : α}
    (hi : KeyInv keyf m) (h : jsGet m k = some v) : keyf v = k := by
  unfold jsGet at h
  cases hf : m.find? (fun p => p.1 = k) with
  | none => rw [hf] at h; cases h
  | some p =>
    rw [hf] at h
    have hp := List.mem_of_find?_eq_some hf
    have hk := List.find?_some hf
    simp only [decide_eq_true_eq] at hk
    have hv : p.2 = v := Option.some.inj h
    rw [← hv, ← hi p hp, hk]

end Agency

namespace Agency.Insights

open Agency

theorem heuristicMap_eq (heuristics : List InsightSuggestion) :
    jsMapOfList (heuristics.map (fun i => (i.resourceId, i))) =
      jsSetAll (fun i => i.resourceId) [] heuristics := by
  rw [jsMapOfList, jsSetAll, List.foldl_map]

theorem mergeEntry_keyInv (hm : List (String × InsightSuggestion))
    (merged : List (String × InsightSuggestion)) (e : AzureEntry)
    (h : KeyInv (fun i => i.resourceId) merged) :
    KeyInv (fun i => i.resourceId) (mergeEntry hm merged e) := by
  unfold mergeEntry
  split
  · exact h
  · split
    · exact h
    · split
      · exact h
      · exact keyInv_jsSet' _ _ rfl h

theorem merged_keyInv (hm : List (String × InsightSuggestion))
    (azure : List AzureEntry) :
    KeyInv (fun i => i.resourceId) (azure.foldl (mergeEntry hm) []) := by
  have hgen : ∀ (init : List (String × InsightSuggestion)),
      KeyInv (fun i => i.resourceId) init →
      KeyInv (fun i => i.resourceId) (azure.foldl (mergeEntry hm) init) := by
    induction azure with
    | nil => exact fun init h => h
    | cons e t ih =>
      intro init h
      exact ih _ (mergeEntry_keyInv hm init e h)
  exact hgen [] (fun p hp => absurd hp (List.not_mem_nil p))

/-- Counterexample to **C4** as stated: a parsed entry whose `summary`
is present but empty overrides the baseline summary with `""` (the
source uses `??`, which only checks null/undefined), so the "only when
non-empty" field rule fails for the string fields. -/
theorem mergeAzureWithHeuristics_counterexample :
    (mergeAzureWithHeuristics [Agency.Examples.mergeBase]
        [Agency.Examples.mergeEmptySummaryEntry]).map
      (fun i => i.summary) = [""] ∧
    Agency.Examples.mergeBase.summary = "Priorizar Ana." ∧
    Agency.Examples.mergeEmptySummaryEntry.summary = some "" ∧
    mergeAzureWithHeuristics [Agency.Examples.mergeBase]
        [Agency.Examples.mergeEmptySummaryEntry] ≠
      [Agency.Examples.mergeBase] := by
  refine ⟨?_, rfl, rfl, ?_⟩
  · with_unfolding_all decide
  · with_unfolding_all decide

/-- **C4 (amended)**: the merge returns exactly the baseline candidate
list in unchanged order (same `resourceId` sequence); parsed entries
whose `resourceId` is missing, empty, or matches no baseline candidate
are ignored; for a matching entry the list-valued fields
(`suggestedProjects`, `developmentIdeas`, `skillHighlights`,
`skillGaps`) override the baseline only when present and non-empty
(applying the source's per-field rules), while the string fields
`resourceName` and `summary` override whenever present — even when
empty. -/
theorem mergeAzureWithHeuristics_field_semantics
    (heuristics : List InsightSuggestion) (azure : List AzureEntry)
    (e : AzureEntry) (base : InsightSuggestion) :
    ((mergeAzureWithHeuristics heuristics azure).map
        (fun i => i.resourceId) =
      heuristics.map (fun i => i.resourceId)) ∧
    ((∀ k, e.resourceId = some k →
        k = "" ∨ ∀ i ∈ heuristics, i.resourceId ≠ k) →
      mergeAzureWithHeuristics heuristics (e :: azure) =
        mergeAzureWithHeuristics heuristics azure) ∧
    ((heuristics.map (fun i => i.resourceId)).Nodup →
      base ∈ heuristics →
      e.resourceId = some base.resourceId →
      base.resourceId ≠ "" →
      mergeAzureWithHeuristics heuristics [e] =
        heuristics.map (fun item =>
          if item.resourceId = base.resourceId then
            { resourceId := base.resourceId
              resourceName := e.resourceName.getD base.resourceName
              summary := e.summary.getD base.summary
              suggestedProjects :=
                overrideProjects e.suggestedProjects base.suggestedProjects
              developmentIdeas :=
                overrideIdeas e.developmentIdeas base.developmentIdeas
              skillHighlights :=
                overrideSkillList e.skillHighlights base.skillHighlights
              skillGaps := overrideSkillList e.skillGaps base.skillGaps }
          else item)) := by
  refine ⟨?_, ?_, ?_⟩
  · unfold mergeAzureWithHeuristics
    rw [List.map_map]
    apply List.map_congr_left
    intro item _
    cases hv : jsGet (azure.foldl
        (mergeEntry (jsMapOfList (heuristics.map
          (fun i => (i.resourceId, i))))) []) item.resourceId with
    | none => simp [Function.comp, hv]
    | some v =>
      have := jsGet_keyInv (merged_keyInv _ azure) hv
      simp [Function.comp, hv, this]
  · intro he
    unfold mergeAzureWithHeuristics
    have hskip : mergeEntry (jsMapOfList (heuristics.map
        (fun i => (i.resourceId, i)))) [] e = [] := by
      unfold mergeEntry
      split
      · rfl
      · next rid heq =>
        by_cases hrid : rid = ""
        · rw [if_pos hrid]
        · rw [if_neg hrid]
          rcases he rid heq with h1 | h2
          · exact absurd h1 hrid
          · have hnone : jsGet (jsMapOfList (heuristics.map
                (fun i => (i.resourceId, i)))) rid = none := by
              rw [heuristicMap_eq, jsGet_jsSetAll]
              have hlw : lastWith (fun i : InsightSuggestion => i.resourceId)
                  heuristics rid = none := by
                unfold lastWith
                rw [List.find?_eq_none]
                intro i hi
                simpa using h2 i (List.mem_reverse.mp hi)
              rw [hlw]
              rfl
            rw [hnone]
    show List.map _ _ = List.map _ _
    have : List.foldl (mergeEntry (jsMapOfList (heuristics.map
        (fun i => (i.resourceId, i))))) [] (e :: azure) =
        List.foldl (mergeEntry (jsMapOfList (heuristics.map
          (fun i => (i.resourceId, i))))) [] azure := by
      rw [List.foldl_cons, hskip]
    rw [this]
  · intro hn hbase hid hne
    unfold mergeAzureWithHeuristics
    have hget : jsGet (jsMapOfList (heuristics.map
        (fun i => (i.resourceId, i)))) base.resourceId = some base := by
      rw [heuristicMap_eq, jsGet_jsSetAll]
      have hlw : lastWith (fun i : InsightSuggestion => i.resourceId)
          heuristics base.resourceId = some base := by
        unfold lastWith
        have hnr : (heuristics.reverse.map
            (fun i : InsightSuggestion => i.resourceId)).Nodup := by
          rw [List.map_reverse]
          exact List.nodup_reverse.mpr hn
        exact find?_keyed_unique _ heuristics.reverse base hnr
          (List.mem_reverse.mpr hbase)
      rw [hlw]
    have hme : List.foldl (mergeEntry (jsMapOfList (heuristics.map
        (fun i => (i.resourceId, i))))) [] [e] =
        [(base.resourceId,
          { resourceId := base.resourceId
            resourceName := e.resourceName.getD base.resourceName
            summary := e.summary.getD base.summary
            suggestedProjects :=
              overrideProjects e.suggestedProjects base.suggestedProjects
            developmentIdeas :=
              overrideIdeas e.developmentIdeas base.developmentIdeas
            skillHighlights :=
              overrideSkillList e.skillHighlights base.skillHighlights
            skillGaps :=
              overrideSkillList e.skillGaps base.skillGaps })] := by
      rw [List.foldl_cons, List.foldl_nil]
      unfold mergeEntry
      split
      · next heq => rw [hid] at heq; cases heq
      · next rid heq =>
        rw [hid] at heq
        injection heq with heq'
        subst heq'
        rw [if_neg hne, hget]
        simp [jsSet]
    show List.map _ _ = List.map _ _
    rw [hme]
    apply List.map_congr_left
    intro item _
    by_cases hit : item.resourceId = base.resourceId
    · rw [if_pos hit, jsGet_cons, if_pos hit.symm]
      rfl
    · rw [if_neg hit, jsGet_cons,
        if_neg (fun hc => hit hc.symm)]
      rfl

end Agency.Insights

namespace Agency.Insights

/-- Witness for C4 at a concrete baseline and entry: the present summary
overrides, the present-but-empty `developmentIdeas` keeps the baseline. -/
theorem mergeAzureWithHeuristics_field_semantics_witness :
    mergeAzureWithHeuristics [Agency.Examples.mergeBase]
        [Agency.Examples.mergeRichEntry] =
      [Agency.Examples.mergeBase].map (fun item =>
        if item.resourceId = Agency.Examples.mergeBase.resourceId then
          { resourceId := Agency.Examples.mergeBase.resourceId
            resourceName := Agency.Examples.mergeRichEntry.resourceName.getD
              Agency.Examples.mergeBase.resourceName
            summary := Agency.Examples.mergeRichEntry.summary.getD
              Agency.Examples.mergeBase.summary
            suggestedProjects := overrideProjects
              Agency.Examples.mergeRichEntry.suggestedProjects
              Agency.Examples.mergeBase.suggestedProjects
            developmentIdeas := overrideIdeas
              Agency.Examples.mergeRichEntry.developmentIdeas
              Agency.Examples.mergeBase.developmentIdeas
            skillHighlights := overrideSkillList
              Agency.Examples.mergeRichEntry.skillHighlights
              Agency.Examples.mergeBase.skillHighlights
            skillGaps := overrideSkillList
              Agency.Examples.mergeRichEntry.skillGaps
              Agency.Examples.mergeBase.skillGaps }
        else item) ∧
    (mergeAzureWithHeuristics [Agency.Examples.mergeBase]
        [Agency.Examples.mergeRichEntry]).map
      (fun i => (i.summary, i.developmentIdeas)) =
      [("Novo resumo.", ["ideia"])] := by
  refine ⟨(mergeAzureWithHeuristics_field_semantics
      [Agency.Examples.mergeBase] [Agency.Examples.mergeRichEntry]
      Agency.Examples.mergeRichEntry Agency.Examples.mergeBase).2.2
      ?_ ?_ ?_ ?_, ?_⟩
  · with_unfolding_all decide
  · with_unfolding_all decide
  · with_unfolding_all decide
  · with_unfolding_all decide
  · with_unfolding_all decide

end Agency.Insights

namespace Agency.Insights

open Agency

theorem groupRecs_getD (recs : List InsightRecommendation) (k : String) :
    ((jsGet (groupRecs recs) k).getD []) =
      recs.filter (fun rec => rec.resourceId = k) := by
  unfold groupRecs
  have hgen : ∀ g : List (String × List InsightRecommendation),
      ((jsGet (recs.foldl (fun g rec => jsSet g rec.resourceId
          ((jsGet g rec.resourceId).getD [] ++ [rec])) g) k).getD []) =
        (jsGet g k).getD [] ++
          recs.filter (fun rec => rec.resourceId = k) := by
    induction recs with
    | nil => intro g; simp
    | cons rec t ih =>
      intro g
      rw [List.foldl_cons, ih, List.filter_cons]
      by_cases hrk : rec.resourceId = k
      · rw [jsGet_jsSet, if_pos hrk.symm,
          show (decide (rec.resourceId = k)) = true by simpa using hrk]
        simp only [Option.getD_some]
        rw [hrk, List.append_assoc, List.singleton_append]
        simp
      · rw [jsGet_jsSet, if_neg (fun hc => hrk hc.symm),
          show (decide (rec.resourceId = k)) = false by simpa using hrk]
        simp
  have := hgen []
  simpa using this

theorem mkProfile_spec (pl pnl : List (String × InsightProject))
    (payload : InsightPayload) (k : String) (res : InsightResource) :
    (mkProfile pl pnl (groupRecs payload.recommendations) k res).resource =
        res ∧
      (mkProfile pl pnl (groupRecs payload.recommendations) k
          res).matchList.map (fun m => m.recommendation) =
        topThree (recsFor payload k) ∧
      (mkProfile pl pnl (groupRecs payload.recommendations) k
          res).averageScore = avgTopThree (recsFor payload k) := by
  have hrec : ((jsGet (groupRecs payload.recommendations) k).getD []) =
      recsFor payload k := groupRecs_getD payload.recommendations k
  refine ⟨rfl, ?_, ?_⟩
  · simp only [mkProfile, hrec]
    set s := (sortByKeyDesc (fun r : InsightRecommendation => r.score)
      (recsFor payload k)).take 3 with hs
    have ht : topThree (recsFor payload k) = s := hs.symm
    by_cases hlen : s.length ≠ 0
    · rw [if_pos hlen, List.map_map]
      have hcomp : ∀ rec ∈ s,
          (((fun m : CandidateMatch => m.recommendation) ∘ fun rec =>
            { recommendation := rec
              missingSkills := ((((jsGet pl rec.projectId).orElse
                  (fun _ => jsGet pnl (normalizeLabel
                    rec.projectName))).map (fun p => p.needs)).getD
                []).map (fun need => need.label) |>.filter (fun label =>
                  ¬ rec.matchedSkills.any (fun skill =>
                    normalizeLabel skill = normalizeLabel label)) })) rec =
            rec := fun rec _ => rfl
      rw [List.map_congr_left hcomp, ht]
      simp
    · rw [if_neg hlen, ht]
      push_neg at hlen
      rw [List.length_eq_zero] at hlen
      rw [hlen]
      rfl
  · simp only [mkProfile, hrec]
    set s := (sortByKeyDesc (fun r : InsightRecommendation => r.score)
      (recsFor payload k)).take 3 with hs
    have ht : topThree (recsFor payload k) = s := hs.symm
    by_cases hlen : s.length ≠ 0
    · rw [if_pos hlen]
      rw [if_pos (And.intro (by simpa using hlen) hlen)]
      simp only [avgTopThree]
      rw [ht, if_neg (by simpa using hlen)]
    · rw [if_neg hlen]
      rw [if_neg (fun hc : _ ∧ _ => hlen hc.2)]
      simp only [avgTopThree]
      push_neg at hlen
      rw [ht, if_pos hlen]

end Agency.Insights

namespace Agency

theorem jsMapOfList_pairs {β : Type} (keyf : β → String) (l : List β) :
    jsMapOfList (l.map (fun x => (keyf x, x))) = jsSetAll keyf [] l := by
  rw [jsMapOfList, jsSetAll, List.foldl_map]

end Agency

namespace Agency.Insights

open Agency

theorem computeCandidateProfiles_eq (payload : InsightPayload) :
    computeCandidateProfiles payload =
      (sortByKeyDesc (fun p => p.averageScore)
        ((jsSetAll (fun r : InsightResource => r.id) []
          payload.resources).map (fun entry =>
            mkProfile
              (jsMapOfList (payload.projects.map (fun p => (p.id, p))))
              (jsMapOfList (payload.projects.map
                (fun p => (normalizeLabel p.name, p))))
              (groupRecs payload.recommendations) entry.1 entry.2))).take
        5 := by
  simp only [computeCandidateProfiles]
  rw [jsMapOfList_pairs (fun r : InsightResource => r.id) payload.resources]

/-- **C5**: the candidate selector groups the recommendations by
`resourceId`, takes each resource's top 3 recommendations by score, sets
`averageScore` to the mean over those (0, with an empty match list, for a
resource with no recommendations), and returns the at-most-5 resources
with the highest `averageScore`, ordered descending: the output is
sorted, has length ≤ 5, each profile is faithful to its resource's
recommendation group, and every selected average is at least the average
of any non-selected resource. -/
theorem computeCandidateProfiles_spec (payload : InsightPayload)
    (p : CandidateProfile) (hp : p ∈ computeCandidateProfiles payload)
    (r : InsightResource) (hr : r ∈ payload.resources)
    (hout : r.id ∉ (computeCandidateProfiles payload).map
      (fun q => q.resource.id)) :
    (computeCandidateProfiles payload).length ≤ 5 ∧
      List.Chain' (fun a b => b.averageScore ≤ a.averageScore)
        (computeCandidateProfiles payload) ∧
      p.resource ∈ payload.resources ∧
      p.matchList.map (fun m => m.recommendation) =
        topThree (recsFor payload p.resource.id) ∧
      p.averageScore = avgTopThree (recsFor payload p.resource.id) ∧
      (recsFor payload p.resource.id = [] →
        p.matchList = [] ∧ p.averageScore = 0) ∧
      avgTopThree (recsFor payload r.id) ≤ p.averageScore := by
  rw [computeCandidateProfiles_eq] at hp hout ⊢
  have hinv : KeyInv (fun r : InsightResource => r.id)
      (jsSetAll (fun r : InsightResource => r.id) [] payload.resources) :=
    keyInv_jsSetAll _ (fun q hq => absurd hq (List.not_mem_nil q))
  have hsorted := sortByKeyDesc_sorted
    (fun p : CandidateProfile => p.averageScore)
    ((jsSetAll (fun r : InsightResource => r.id) []
      payload.resources).map (fun entry =>
        mkProfile
          (jsMapOfList (payload.projects.map (fun p => (p.id, p))))
          (jsMapOfList (payload.projects.map
            (fun p => (normalizeLabel p.name, p))))
          (groupRecs payload.recommendations) entry.1 entry.2))
  have hpmem := List.take_subset 5 _ hp
  have hpall := (sortByKeyDesc_mem _ _).mp hpmem
  obtain ⟨entry, hentry, hpe⟩ := List.mem_map.mp hpall
  have hkey : entry.1 = entry.2.id := hinv entry hentry
  have hres : p.resource = entry.2 := by rw [← hpe]; rfl
  have hpid : p.resource.id = entry.1 := by rw [hres, hkey]
  have hms := mkProfile_spec
    (jsMapOfList (payload.projects.map (fun p => (p.id, p))))
    (jsMapOfList (payload.projects.map
      (fun p => (normalizeLabel p.name, p))))
    payload entry.1 entry.2
  refine ⟨?_, ?_, ?_, ?_, ?_, ?_, ?_⟩
  · rw [List.length_take]
    exact min_le_left _ _
  · exact hsorted.take 5
  · rw [hres]
    rcases values_mem_of_jsSetAll (fun r : InsightResource => r.id) []
      payload.resources entry hentry with h0 | h0
    · cases h0
    · exact h0
  · rw [hpid, ← hpe]
    exact hms.2.1
  · rw [hpid, ← hpe]
    exact hms.2.2
  · intro hempty
    rw [hpid] at hempty
    have htop : topThree (recsFor payload entry.1) = [] := by
      rw [hempty]; rfl
    have havg : avgTopThree (recsFor payload entry.1) = 0 := by
      rw [hempty]; rfl
    constructor
    · have h1 := hms.2.1
      rw [htop] at h1
      have h2 : p.matchList.map (fun m => m.recommendation) = [] := by
        rw [← hpe]; exact h1
      exact List.map_eq_nil_iff.mp h2
    · rw [← hpe, hms.2.2, havg]
  · have hkeymem : r.id ∈ (jsSetAll (fun r : InsightResource => r.id) []
        payload.resources).map (fun q => q.1) :=
      jsSetAll_key_mem [] payload.resources r hr
    obtain ⟨qentry, hqentry, hqk⟩ := List.mem_map.mp hkeymem
    have hqall : mkProfile
        (jsMapOfList (payload.projects.map (fun p => (p.id, p))))
        (jsMapOfList (payload.projects.map
          (fun p => (normalizeLabel p.name, p))))
        (groupRecs payload.recommendations) qentry.1 qentry.2 ∈
        (jsSetAll (fun r : InsightResource => r.id) []
          payload.resources).map (fun entry =>
            mkProfile
              (jsMapOfList (payload.projects.map (fun p => (p.id, p))))
              (jsMapOfList (payload.projects.map
                (fun p => (normalizeLabel p.name, p))))
              (groupRecs payload.recommendations) entry.1 entry.2) :=
      List.mem_map_of_mem _ hqentry
    have hqsorted := (sortByKeyDesc_mem
      (fun p : CandidateProfile => p.averageScore) _).mpr hqall
    have hqavg : (mkProfile
        (jsMapOfList (payload.projects.map (fun p => (p.id, p))))
        (jsMapOfList (payload.projects.map
          (fun p => (normalizeLabel p.name, p))))
        (groupRecs payload.recommendations) qentry.1
        qentry.2).averageScore = avgTopThree (recsFor payload r.id) := by
      rw [← hqk]
      exact (mkProfile_spec _ _ payload qentry.1 qentry.2).2.2
    have hqid : (mkProfile
        (jsMapOfList (payload.projects.map (fun p => (p.id, p))))
        (jsMapOfList (payload.projects.map
          (fun p => (normalizeLabel p.name, p))))
        (groupRecs payload.recommendations) qentry.1
        qentry.2).resource.id = r.id := by
      show qentry.2.id = r.id
      have h1 : qentry.1 = qentry.2.id := hinv qentry hqentry
      rw [← h1, hqk]
    have hqdrop : mkProfile
        (jsMapOfList (payload.projects.map (fun p => (p.id, p))))
        (jsMapOfList (payload.projects.map
          (fun p => (normalizeLabel p.name, p))))
        (groupRecs payload.recommendations) qentry.1 qentry.2 ∈
        (sortByKeyDesc (fun p : CandidateProfile => p.averageScore)
          ((jsSetAll (fun r : InsightResource => r.id) []
            payload.resources).map (fun entry =>
              mkProfile
                (jsMapOfList (payload.projects.map (fun p => (p.id, p))))
                (jsMapOfList (payload.projects.map
                  (fun p => (normalizeLabel p.name, p))))
                (groupRecs payload.recommendations) entry.1
                entry.2))).drop 5 := by
      have hsplit := List.take_append_drop 5
        (sortByKeyDesc (fun p : CandidateProfile => p.averageScore)
          ((jsSetAll (fun r : InsightResource => r.id) []
            payload.resources).map (fun entry =>
              mkProfile
                (jsMapOfList (payload.projects.map (fun p => (p.id, p))))
                (jsMapOfList (payload.projects.map
                  (fun p => (normalizeLabel p.name, p))))
                (groupRecs payload.recommendations) entry.1 entry.2)))
      rw [← hsplit] at hqsorted
      rcases List.mem_append.mp hqsorted with h5 | h5
      · exfalso
        apply hout
        exact hqid ▸ List.mem_map_of_mem (fun q => q.resource.id) h5
      · exact h5
    haveI : IsTrans CandidateProfile (fun a b =>
        b.averageScore ≤ a.averageScore) :=
      ⟨fun a b c h1 h2 => le_trans h2 h1⟩
    have hpw := List.chain'_iff_pairwise.mp hsorted
    have hpw2 : List.Pairwise (fun a b : CandidateProfile =>
        b.averageScore ≤ a.averageScore)
        ((sortByKeyDesc (fun p : CandidateProfile => p.averageScore)
          ((jsSetAll (fun r : InsightResource => r.id) []
            payload.resources).map (fun entry =>
              mkProfile
                (jsMapOfList (payload.projects.map (fun p => (p.id, p))))
                (jsMapOfList (payload.projects.map
                  (fun p => (normalizeLabel p.name, p))))
                (groupRecs payload.recommendations) entry.1
                entry.2))).take 5 ++
          (sortByKeyDesc (fun p : CandidateProfile => p.averageScore)
            ((jsSetAll (fun r : InsightResource => r.id) []
              payload.resources).map (fun entry =>
                mkProfile
                  (jsMapOfList (payload.projects.map (fun p => (p.id, p))))
                  (jsMapOfList (payload.projects.map
                    (fun p => (normalizeLabel p.name, p))))
                  (groupRecs payload.recommendations) entry.1
                  entry.2))).drop 5) := by
      rw [List.take_append_drop]
      exact hpw
    have hcross := (List.pairwise_append.mp hpw2).2.2
    have hle := hcross p hp _ hqdrop
    rw [hqavg] at hle
    exact hle

end Agency.Insights

namespace Agency.Insights

/-- Witness for C5 at a six-resource payload: the selector returns 5
profiles; the `r1` profile carries the mean of its top-3 scores, and the
excluded resource `r6` has a no-larger average. -/
theorem computeCandidateProfiles_spec_witness :
    Agency.Examples.candidateR1 ∈
        computeCandidateProfiles Agency.Examples.insightPayload6 ∧
      (computeCandidateProfiles Agency.Examples.insightPayload6).length ≤
        5 ∧
      Agency.Examples.candidateR1.averageScore =
        avgTopThree (recsFor Agency.Examples.insightPayload6
          Agency.Examples.candidateR1.resource.id) ∧
      avgTopThree (recsFor Agency.Examples.insightPayload6
          (Agency.Examples.bareResource "r6").id) ≤
        Agency.Examples.candidateR1.averageScore := by
  have h1 : Agency.Examples.candidateR1 ∈
      computeCandidateProfiles Agency.Examples.insightPayload6 := by
    with_unfolding_all decide
  have h2 : Agency.Examples.bareResource "r6" ∈
      Agency.Examples.insightPayload6.resources := by
    with_unfolding_all decide
  have h3 : (Agency.Examples.bareResource "r6").id ∉
      (computeCandidateProfiles Agency.Examples.insightPayload6).map
        (fun q => q.resource.id) := by
    with_unfolding_all decide
  have h := computeCandidateProfiles_spec Agency.Examples.insightPayload6
    Agency.Examples.candidateR1 h1 (Agency.Examples.bareResource "r6") h2 h3
  exact ⟨h1, h.1, h.2.2.2.2.1, h.2.2.2.2.2.2⟩

end Agency.Insights

namespace Agency.Slug

/-- The relation "not two hyphens in a row" used for run-collapse facts. -/
def NoDoubleHyphen (a b : Char) : Prop := ¬ (a = '-' ∧ b = '-')

theorem isAlnumLower_ne_hyphen {c : Char} (h : isAlnumLower c = true) :
    c ≠ '-' := by
  intro hc
  subst hc
  simp [isAlnumLower] at h

theorem isAlnumLower_lt_128 {c : Char} (h : isAlnumLower c = true) :
    c.toNat < 128 := by
  simp only [isAlnumLower, decide_eq_true_eq] at h
  rcases h with ⟨_, h2⟩ | ⟨_, h2⟩ <;> omega

theorem hyphen_lt_128 : ('-' : Char).toNat < 128 := by decide

theorem replaceRuns_alphabet : ∀ (l : List Char) (flag : Bool) (c : Char),
    c ∈ replaceRuns l flag → isAlnumLower c = true ∨ c = '-' := by
  intro l
  induction l with
  | nil => intro flag c h; cases h
  | cons x t ih =>
    intro flag c h
    by_cases hx : isAlnumLower x
    · rw [replaceRuns, if_pos hx] at h
      rcases List.mem_cons.mp h with rfl | hm
      · left; exact hx
      · exact ih false c hm
    · rw [replaceRuns, if_neg hx] at h
      cases flag with
      | true => exact ih true c (by simpa using h)
      | false =>
        simp only [Bool.false_eq_true, if_false] at h
        rcases List.mem_cons.mp h with rfl | hm
        · right; rfl
        · exact ih true c hm

theorem replaceRuns_true_head : ∀ l : List Char,
    replaceRuns l true = [] ∨ ∃ c t', replaceRuns l true = c :: t' ∧
      isAlnumLower c = true := by
  intro l
  induction l with
  | nil => left; rfl
  | cons x t ih =>
    by_cases hx : isAlnumLower x
    · right
      exact ⟨x, replaceRuns t false, by rw [replaceRuns, if_pos hx], hx⟩
    · rw [replaceRuns, if_neg hx]
      simpa using ih

theorem replaceRuns_chain : ∀ (l : List Char) (flag : Bool),
    List.Chain' NoDoubleHyphen (replaceRuns l flag) := by
  intro l
  induction l with
  | nil => intro flag; simp [replaceRuns]
  | cons x t ih =>
    intro flag
    by_cases hx : isAlnumLower x
    · rw [replaceRuns, if_pos hx]
      rw [List.chain'_cons']
      refine ⟨?_, ih false⟩
      intro y _
      exact fun hc => isAlnumLower_ne_hyphen hx hc.1
    · rw [replaceRuns, if_neg hx]
      cases flag with
      | true => simpa using ih true
      | false =>
        simp only [Bool.false_eq_true, if_false]
        rw [List.chain'_cons']
        refine ⟨?_, ih true⟩
        intro y hy
        rcases replaceRuns_true_head t with h0 | ⟨c, t', he, hc⟩
        · rw [h0] at hy; cases hy
        · rw [he] at hy
          simp only [List.head?_cons, Option.mem_def, Option.some.injEq] at hy
          subst hy
          exact fun hcc => isAlnumLower_ne_hyphen hc hcc.2

theorem replaceRuns_id : ∀ l : List Char,
    (∀ c ∈ l, isAlnumLower c = true ∨ c = '-') →
    List.Chain' NoDoubleHyphen l →
    ∀ flag : Bool,
    (flag = true → ∀ c, l.head? = some c → isAlnumLower c = true) →
    replaceRuns l flag = l := by
  intro l
  induction l with
  | nil => intro _ _ flag _; cases flag <;> rfl
  | cons x t ih =>
    intro halpha hchain flag hhead
    rw [List.chain'_cons'] at hchain
    by_cases hx : isAlnumLower x
    · rw [replaceRuns, if_pos hx]
      rw [ih (fun c hc => halpha c (List.mem_cons_of_mem x hc)) hchain.2
        false (by intro h; cases h)]
    · have hxh : x = '-' := by
        rcases halpha x (List.mem_cons_self x t) with h | h
        · exact absurd h hx
        · exact h
      cases flag with
      | true =>
        exact absurd (hhead rfl x rfl) hx
      | false =>
        rw [replaceRuns, if_neg hx]
        simp only [Bool.false_eq_true, if_false]
        rw [ih (fun c hc => halpha c (List.mem_cons_of_mem x hc)) hchain.2
          true ?head, hxh]
        case head =>
          intro _ c hc
          have hR := hchain.1 c (by rw [hc]; rfl)
          rcases halpha c (List.mem_cons_of_mem x
            (List.mem_of_mem_head? hc)) with h | h
          · exact h
          · exact absurd ⟨hxh, h⟩ hR

end Agency.Slug

namespace Agency.Slug

theorem dropWhile_head_false {p : Char → Bool} {l : List Char} {c : Char}
    (h : (l.dropWhile p).head? = some c) : p c = false := by
  induction l with
  | nil => cases h
  | cons x t ih =>
    rw [List.dropWhile_cons] at h
    by_cases hx : p x
    · rw [if_pos hx] at h
      exact ih h
    · rw [if_neg hx] at h
      simp only [List.head?_cons, Option.some.injEq] at h
      subst h
      exact Bool.not_eq_true _ ▸ (by simpa using hx)

theorem dropWhile_id {p : Char → Bool} {l : List Char}
    (h : ∀ c, l.head? = some c → p c = false) : l.dropWhile p = l := by
  cases l with
  | nil => rfl
  | cons x t =>
    rw [List.dropWhile_cons, if_neg (by simp [h x rfl])]

theorem dropWhile_suffix_ex (p : Char → Bool) (l : List Char) :
    ∃ t, l = t ++ l.dropWhile p := by
  induction l with
  | nil => exact ⟨[], rfl⟩
  | cons x t ih =>
    rw [List.dropWhile_cons]
    by_cases hx : p x
    · obtain ⟨s, hs⟩ := ih
      exact ⟨x :: s, by rw [if_pos hx, List.cons_append, ← hs]⟩
    · exact ⟨[], by rw [if_neg hx]; rfl⟩

theorem chain'_dropWhile {R : Char → Char → Prop} {p : Char → Bool}
    {l : List Char} (h : List.Chain' R l) :
    List.Chain' R (l.dropWhile p) := by
  induction l with
  | nil => exact h
  | cons x t ih =>
    rw [List.dropWhile_cons]
    by_cases hx : p x
    · rw [if_pos hx]
      exact ih (List.chain'_cons'.mp h).2
    · rw [if_neg hx]
      exact h

theorem chain'_flip_of_symm {R : Char → Char → Prop}
    (hsymm : ∀ a b, R a b → R b a) {l : List Char}
    (h : List.Chain' (flip R) l) : List.Chain' R l :=
  h.imp (fun a b hab => hsymm b a hab)

theorem trimHyphens_id {l : List Char}
    (hh : ∀ c, l.head? = some c → c ≠ '-')
    (hl : ∀ c, l.getLast? = some c → c ≠ '-') : trimHyphens l = l := by
  unfold trimHyphens
  have h1 : l.dropWhile (fun c => c = '-') = l :=
    dropWhile_id (fun c hc => by simpa using hh c hc)
  rw [h1]
  have h2 : l.reverse.dropWhile (fun c => c = '-') = l.reverse :=
    dropWhile_id (fun c hc => by
      rw [List.head?_reverse] at hc
      simpa using hl c hc)
  rw [h2, List.reverse_reverse]

theorem mem_of_mem_dropWhile {p : Char → Bool} {l : List Char} {c : Char}
    (h : c ∈ l.dropWhile p) : c ∈ l := by
  obtain ⟨t, ht⟩ := dropWhile_suffix_ex p l
  rw [ht]
  exact List.mem_append_right t h

theorem trimHyphens_subset {l : List Char} {c : Char}
    (h : c ∈ trimHyphens l) : c ∈ l := by
  unfold trimHyphens at h
  rw [List.mem_reverse] at h
  have h2 := mem_of_mem_dropWhile h
  rw [List.mem_reverse] at h2
  exact mem_of_mem_dropWhile h2

theorem chain'_reverse_symm {R : Char → Char → Prop}
    (hsymm : ∀ a b, R a b → R b a) {l : List Char}
    (h : List.Chain' R l) : List.Chain' R l.reverse := by
  rw [List.chain'_reverse]
  exact h.imp (fun a b hab => hsymm a b hab)

theorem trimHyphens_chain {l : List Char}
    (h : List.Chain' NoDoubleHyphen l) :
    List.Chain' NoDoubleHyphen (trimHyphens l) := by
  unfold trimHyphens
  have hsymm : ∀ a b, NoDoubleHyphen a b → NoDoubleHyphen b a :=
    fun a b hab hc => hab ⟨hc.2, hc.1⟩
  exact chain'_reverse_symm hsymm (chain'_dropWhile
    (chain'_reverse_symm hsymm (chain'_dropWhile h)))

theorem getLast?_append_right {α : Type} (t w : List α) (hw : w ≠ []) :
    (t ++ w).getLast? = w.getLast? := by
  rw [← List.head?_reverse, ← List.head?_reverse, List.reverse_append]
  cases hrw : w.reverse with
  | nil => exact absurd (by simpa using congrArg List.reverse hrw) hw
  | cons a s => rw [List.cons_append]; rfl

theorem trimHyphens_head {l : List Char} {c : Char}
    (h : (trimHyphens l).head? = some c) : c ≠ '-' := by
  unfold trimHyphens at h
  rw [List.head?_reverse] at h
  obtain ⟨t, ht⟩ := dropWhile_suffix_ex (fun c => c = '-')
    (l.dropWhile (fun c => c = '-')).reverse
  have hne : (l.dropWhile (fun c => c = '-')).reverse.dropWhile
      (fun c => c = '-') ≠ [] := by
    intro h0
    rw [h0] at h
    cases h
  have hlast := getLast?_append_right t _ hne
  rw [← ht] at hlast
  have h2 : ((l.dropWhile (fun c => c = '-')).reverse).getLast? =
      some c := by rw [hlast]; exact h
  rw [List.getLast?_reverse] at h2
  have := dropWhile_head_false h2
  simpa using this

theorem trimHyphens_last {l : List Char} {c : Char}
    (h : (trimHyphens l).getLast? = some c) : c ≠ '-' := by
  unfold trimHyphens at h
  rw [List.getLast?_reverse] at h
  have := dropWhile_head_false h
  simpa using this

end Agency.Slug

namespace Agency.Slug

theorem nfdTable_keys_high :
    ∀ p ∈ nfdTable, 128 ≤ p.1.toNat := by decide

theorem nfdChar_id {c : Char} (h : isAlnumLower c = true ∨ c = '-') :
    nfdChar c = [c] := by
  have hlt : c.toNat < 128 := by
    rcases h with h | h
    · exact isAlnumLower_lt_128 h
    · rw [h]; exact hyphen_lt_128
  unfold nfdChar
  rw [List.find?_eq_none.mpr]
  · rfl
  · intro p hp
    simp only [decide_eq_true_eq]
    intro hc
    have := nfdTable_keys_high p hp
    rw [hc] at this
    omega

theorem flatMap_id_of_singleton {l : List Char} {f : Char → List Char}
    (h : ∀ c ∈ l, f c = [c]) : l.flatMap f = l := by
  induction l with
  | nil => rfl
  | cons x t ih =>
    rw [List.flatMap_cons, h x (List.mem_cons_self x t),
      ih (fun c hc => h c (List.mem_cons_of_mem x hc))]
    rfl

theorem isCombining_false {c : Char} (h : isAlnumLower c = true ∨ c = '-') :
    isCombining c = false := by
  have hlt : c.toNat < 128 := by
    rcases h with h | h
    · exact isAlnumLower_lt_128 h
    · rw [h]; exact hyphen_lt_128
  simp only [isCombining, decide_eq_false_iff_not]
  omega

theorem toLowerCh_id {c : Char} (h : isAlnumLower c = true ∨ c = '-') :
    toLowerCh c = c := by
  unfold toLowerCh
  rw [if_neg]
  intro hc
  rcases h with h | h
  · simp only [isAlnumLower, decide_eq_true_eq] at h
    rcases h with ⟨h1, _⟩ | ⟨_, h2⟩ <;> omega
  · rw [h] at hc
    revert hc
    decide

theorem slugChars_alphabet {l : List Char} {c : Char}
    (h : c ∈ slugChars l) : isAlnumLower c = true ∨ c = '-' := by
  unfold slugChars at h
  exact replaceRuns_alphabet _ false c (trimHyphens_subset h)

theorem slugChars_chain (l : List Char) :
    List.Chain' NoDoubleHyphen (slugChars l) := by
  unfold slugChars
  exact trimHyphens_chain (replaceRuns_chain _ false)

theorem slugChars_idem (l : List Char) :
    slugChars (slugChars l) = slugChars l := by
  have halpha : ∀ c ∈ slugChars l, isAlnumLower c = true ∨ c = '-' :=
    fun c hc => slugChars_alphabet hc
  have hchain := slugChars_chain l
  have hhead : ∀ c, (slugChars l).head? = some c → c ≠ '-' :=
    fun c hc => trimHyphens_head hc
  have hlast : ∀ c, (slugChars l).getLast? = some c → c ≠ '-' :=
    fun c hc => trimHyphens_last hc
  show trimHyphens (replaceRuns ((((slugChars l).flatMap nfdChar).filter
    (fun c => ¬ isCombining c)).map toLowerCh) false) = slugChars l
  rw [flatMap_id_of_singleton (fun c hc => nfdChar_id (halpha c hc))]
  rw [List.filter_eq_self.mpr ?hfil]
  case hfil =>
    intro c hc
    simp [isCombining_false (halpha c hc)]
  rw [show (slugChars l).map toLowerCh = slugChars l from ?hmap]
  case hmap =>
    have : ∀ c ∈ slugChars l, toLowerCh c = c :=
      fun c hc => toLowerCh_id (halpha c hc)
    calc (slugChars l).map toLowerCh
        = (slugChars l).map (fun c => c) := List.map_congr_left this
      _ = slugChars l := List.map_id' _
  rw [replaceRuns_id (slugChars l) halpha hchain false (by intro h; cases h)]
  exact trimHyphens_id hhead hlast

/-- **C9**: the slug function is pure and total — it is a function in
the embedding, so every input yields one output independent of call
order and no exception — the empty string maps to the empty string, and
it is idempotent: `slugify (slugify x) = slugify x` for every string. -/
theorem slugify_pure_total_idempotent (x : String) :
    slugify "" = "" ∧ slugify (slugify x) = slugify x := by
  constructor
  · rfl
  · show String.mk (slugChars (String.mk (slugChars x.data)).data) = _
    rw [show (String.mk (slugChars x.data)).data = slugChars x.data from rfl,
      slugChars_idem]
    rfl

end Agency.Slug
